import Mathlib

/-!
Shallow embedding of the WLTP gearshift calculation tool
(JRCSTU gearshift_calculation_tool), centred on the modules
gearshift/core/model/calculateShiftpointsNdvFullPC/__init__.py and
gearshift/core/model/calculateShiftpointsNdvFullPC/corrections/__init__.py.

Modelling conventions, used throughout:
* python float values are modelled as exact rationals.  To keep every theorem
  kernel checkable by rfl or decide, rationals are represented by the pair type
  PQ (integer numerator, natural denominator, not normalised); all operations
  and comparisons are the usual exact rational ones via cross multiplication.
  Every value constructed below has a positive denominator.  All concrete
  inputs in the theorems use values on which IEEE double arithmetic in the
  source is exact, so the exact rational model agrees with the source;
* numpy float arrays become lists over PyF := Option PQ, where none models
  NaN; every numpy comparison involving NaN is False and NaN propagates
  through arithmetic, which the pf helpers reproduce;
* numpy index vectors (results of np.where, np.intersect1d, np.union1d) are
  sorted duplicate free lists of naturals; np.where output is sorted and
  duplicate free, so intersection and union coincide with the order
  preserving filters used here;
* fallible python behaviour (IndexError, ValueError on int(nan), broadcast
  shape mismatch, unbound local variables) becomes Except String;
* python negative indexing wraps from the end, which pyGetI reproduces;
* np.min and np.max over a masked array row become Except valued reductions
  failing on a fully masked row (numpy silently yields a fill value there; no
  theorem below depends on that case and all concrete inputs avoid it).
-/

namespace Gearshift

/-- Exact rational with unnormalised representation: num over den.  All
constructed values keep den positive; operations never normalise, so they
reduce structurally in the kernel. -/
structure PQ where
  num : ℤ
  den : ℕ
deriving DecidableEq, Repr

/-- Rational from an integer. -/
def pqI (n : ℤ) : PQ := ⟨n, 1⟩

instance : OfNat PQ n := ⟨pqI n⟩

/-- Value equality of PQ (cross multiplication). -/
def PQ.eqv (a b : PQ) : Bool := a.num * (b.den : ℤ) == b.num * (a.den : ℤ)

/-- Strict order on PQ (cross multiplication; dens positive). -/
def PQ.ltb (a b : PQ) : Bool := a.num * (b.den : ℤ) < b.num * (a.den : ℤ)

/-- Non strict order on PQ. -/
def PQ.leb (a b : PQ) : Bool := a.num * (b.den : ℤ) ≤ b.num * (a.den : ℤ)

/-- Addition on PQ. -/
def PQ.add (a b : PQ) : PQ := ⟨a.num * b.den + b.num * a.den, a.den * b.den⟩

/-- Subtraction on PQ. -/
def PQ.sub (a b : PQ) : PQ := ⟨a.num * b.den - b.num * a.den, a.den * b.den⟩

/-- Multiplication on PQ. -/
def PQ.mul (a b : PQ) : PQ := ⟨a.num * b.num, a.den * b.den⟩

/-- Division on PQ (sign moved to the numerator so den stays natural). -/
def PQ.div (a b : PQ) : PQ :=
  if 0 ≤ b.num then ⟨a.num * b.den, a.den * b.num.toNat⟩
  else ⟨-(a.num * b.den), a.den * (-b.num).toNat⟩

/-- Absolute value on PQ. -/
def PQ.absq (a : PQ) : PQ := ⟨|a.num|, a.den⟩

/-- The rational value of a PQ, used to state meaning level facts. -/
def PQ.val (a : PQ) : ℚ := (a.num : ℚ) / (a.den : ℚ)

/-- A numpy float: none models NaN. -/
abbrev PyF := Option PQ

/-- Shorthand for an integer gear value as a PyF. -/
def pf (n : ℤ) : PyF := some (pqI n)

/-- numpy less than: any comparison with NaN is False. -/
def pfLt : PyF → PyF → Bool
  | some a, some b => PQ.ltb a b
  | _, _ => false

/-- numpy greater than. -/
def pfGt : PyF → PyF → Bool
  | some a, some b => PQ.ltb b a
  | _, _ => false

/-- numpy less or equal. -/
def pfLe : PyF → PyF → Bool
  | some a, some b => PQ.leb a b
  | _, _ => false

/-- numpy greater or equal. -/
def pfGe : PyF → PyF → Bool
  | some a, some b => PQ.leb b a
  | _, _ => false

/-- numpy equality: NaN is not equal to anything, including itself. -/
def pfEq : PyF → PyF → Bool
  | some a, some b => PQ.eqv a b
  | _, _ => false

/-- numpy inequality: NaN is unequal to everything. -/
def pfNe (a b : PyF) : Bool := !(pfEq a b)

/-- Equality with NaN equal to NaN (np.array equal with equal nan True). -/
def pfEqNan : PyF → PyF → Bool
  | some a, some b => PQ.eqv a b
  | none, none => true
  | _, _ => false

/-- Elementwise equal nan comparison of two lists. -/
def listEqNan (a b : List PyF) : Bool :=
  a.length == b.length && (List.zip a b).all fun p => pfEqNan p.1 p.2

/-- NaN propagating addition. -/
def pfAdd : PyF → PyF → PyF
  | some a, some b => some (PQ.add a b)
  | _, _ => none

/-- NaN propagating subtraction. -/
def pfSub : PyF → PyF → PyF
  | some a, some b => some (PQ.sub a b)
  | _, _ => none

/-- python min(a, b): returns b when b < a, else a (NaN aware, order matters). -/
def pyMin (a b : PyF) : PyF := if pfLt b a then b else a

/-- python max(a, b): returns b when b > a, else a (NaN aware, order matters). -/
def pyMax (a b : PyF) : PyF := if pfGt b a then b else a

/-- Minimum of two PQ values. -/
def pqMin (a b : PQ) : PQ := if PQ.ltb b a then b else a

/-- Maximum of two PQ values. -/
def pqMax (a b : PQ) : PQ := if PQ.ltb a b then b else a

/-- Element of a PyF list at position t, NaN when out of range. -/
def elf (l : List PyF) (t : ℕ) : PyF := l.getD t none

/-- Element of a PQ list at position t, zero when out of range. -/
def elq (l : List PQ) (t : ℕ) : PQ := l.getD t 0

/-- Element of a natural number list at position t, zero when out of range. -/
def eln (l : List ℕ) (t : ℕ) : ℕ := l.getD t 0

/-- python indexing with wrap around for negative indices; IndexError becomes
Except.error.  Used where the source may genuinely index out of range. -/
def pyGetI (l : List α) (i : ℤ) : Except String α :=
  let n : ℤ := l.length
  let j : ℤ := if i < 0 then i + n else i
  if 0 ≤ j ∧ j < n then
    match l.get? j.toNat with
    | some x => Except.ok x
    | none => Except.error ("index normalisation failed")
  else Except.error ("index out of bounds")

/-- np.where on a list: the sorted list of positions satisfying the predicate. -/
def idxWhere (p : α → Bool) (l : List α) (d : α) : List ℕ :=
  (List.range l.length).filter fun t => p (l.getD t d)

/-- np.where specialised to PyF lists. -/
def wheref (p : PyF → Bool) (l : List PyF) : List ℕ := idxWhere p l none

/-- np.where specialised to natural valued flag lists. -/
def wheren (p : ℕ → Bool) (l : List ℕ) : List ℕ := idxWhere p l 0

/-- Positions below n satisfying a predicate on the position itself
(used for masks combining several shifted arrays). -/
def whereIdx (n : ℕ) (p : ℕ → Bool) : List ℕ := (List.range n).filter p

/-- np.intersect1d on sorted duplicate free index vectors. -/
def interIdx (a b : List ℕ) : List ℕ := a.filter fun t => t ∈ b

/-- np.union1d on sorted duplicate free index vectors, both bounded by n. -/
def unionIdx (n : ℕ) (a b : List ℕ) : List ℕ :=
  (List.range n).filter fun t => t ∈ a || t ∈ b

/-- np.put with a constant value at a list of positions (all in range where
used: the positions come from np.where on a list of the same length). -/
def npPut (l : List α) (ts : List ℕ) (v : α) : List α :=
  l.mapIdx fun t x => if t ∈ ts then v else x

/-- Pointwise update at a list of positions by a function of position and old
value. -/
def npMapAt (l : List α) (ts : List ℕ) (f : ℕ → α → α) : List α :=
  l.mapIdx fun t x => if t ∈ ts then f t x else x

/-- Fancy indexed assignment lhs[ts] = vs; numpy raises on a length mismatch. -/
def npAssignPairs (l : List α) (ts : List ℕ) (vs : List α) : Except String (List α) :=
  if ts.length = vs.length then
    Except.ok ((ts.zip vs).foldl (fun acc tv => acc.set tv.1 tv.2) l)
  else Except.error ("broadcast shape mismatch")

/-- np.diff. -/
def npDiff (l : List PyF) : List PyF := List.zipWith pfSub (l.drop 1) l

/-- np.insert(l, 0, v) followed by dropping the last element: the prev shift. -/
def prevShift (l : List α) (v : α) : List α := (v :: l).dropLast

/-- np.insert at a python style position (negative counts from the end). -/
def npInsert (l : List α) (pos : ℤ) (v : α) : Except String (List α) :=
  let n : ℤ := l.length
  let j : ℤ := if pos < 0 then pos + n else pos
  if 0 ≤ j ∧ j ≤ n then
    Except.ok (l.take j.toNat ++ v :: l.drop j.toNat)
  else Except.error ("np.insert index out of bounds")

/-- np.append of one element. -/
def npAppend (l : List α) (v : α) : List α := l ++ [v]

/-- The helper my cummin of the corrections module: running minimum where NaN
never displaces an established minimum and an initial NaN is replaced by the
first element. -/
def my_cummin (l : List PyF) : List PyF :=
  (l.foldl (fun (st : PyF × List PyF) x =>
    let m := st.1
    let m' := if m = none then x else if pfLt x m then x else m
    (m', st.2 ++ [m'])) (none, [])).2

/-- Minimum of the unmasked entries of a row; fails on a fully masked row. -/
def maskedMinRow (row : List PyF) : Except String PQ :=
  match row.filterMap id with
  | [] => Except.error ("fully masked row")
  | x :: xs => Except.ok (xs.foldl pqMin x)

/-- Maximum of the unmasked entries of a row; fails on a fully masked row. -/
def maskedMaxRow (row : List PyF) : Except String PQ :=
  match row.filterMap id with
  | [] => Except.error ("fully masked row")
  | x :: xs => Except.ok (xs.foldl pqMax x)

/-- Per row masked minima of a matrix (np.min of a masked array, axis 1). -/
def maskedMins (m : List (List PyF)) : Except String (List PQ) :=
  m.mapM maskedMinRow

/-- Per row masked maxima of a matrix (np.max of a masked array, axis 1). -/
def maskedMaxs (m : List (List PyF)) : Except String (List PQ) :=
  m.mapM maskedMaxRow

/-! ## applyCorrection4c (corrections module, lines 750 to 818)

The scan of the first branch evaluates InitialGears[d + i] while only
guaranteeing d + i <= len(InitialGears); at d + i = len this raises IndexError,
which the Except models. -/

/-- Scan of the first branch of 4c: counts the seconds after the pattern whose
gear exceeds the gear before the sequence; reproduces the off by one IndexError
of the python loop bound d + i <= len(InitialGears). -/
def scan4cGtGo (g : List PyF) (gb : PyF) (d : ℕ) : ℕ → ℕ → Except String ℕ
  | _, 0 => Except.error ("scan fuel exhausted")
  | i, fuel + 1 =>
    if d + i ≤ g.length then
      match g.get? (d + i) with
      | none => Except.error ("IndexError in correction 4c scan")
      | some x => if pfGt x gb then scan4cGtGo g gb d (i + 1) fuel else Except.ok i
    else Except.ok i

/-- Scan of the second branch of 4c: counts seconds until the gear one step
above the gear before the sequence reappears; its bound d + i <= len - 1 keeps
all reads in range. -/
def scan4cNeGo (g : List PyF) (target : PyF) (d : ℕ) : ℕ → ℕ → Except String ℕ
  | _, 0 => Except.error ("scan fuel exhausted")
  | i, fuel + 1 =>
    if d + i + 1 ≤ g.length then
      if pfNe (elf g (d + i)) target then scan4cNeGo g target d (i + 1) fuel
      else Except.ok i
    else Except.ok i

/-- Body of the 4c loop for one base position b. -/
def corr4cStep (minPoss : List PQ) (g : List PyF) (b : ℕ) : Except String (List PyF) :=
  if pfGt (elf g b) (pf 0) ∧ pfEq (elf g (b + 1)) (pfAdd (elf g b) (pf 1)) ∧
      pfEq (elf g (b + 2)) (elf g (b + 1)) then do
    let d := b + 2
    let i ← scan4cGtGo g (elf g b) d 0 (g.length + 2)
    if i ≤ 4 then
      let r := (List.range (d + i)).filter fun t => b + 1 ≤ t
      let g1 := npPut g r (elf g b)
      Except.ok (npMapAt g1 r fun t x => pyMax x (some (elq minPoss t)))
    else Except.ok g
  else if pfGt (elf g b) (pf 0) ∧ pfEq (elf g (b + 1)) (pfAdd (elf g b) (pf 2)) ∧
      pfEq (elf g (b + 2)) (elf g (b + 1)) then do
    let d := b + 2
    let i ← scan4cNeGo g (pfAdd (elf g b) (pf 1)) d 0 (g.length + 2)
    if i ≤ 4 then
      let r := (List.range (d + i)).filter fun t => b + 1 ≤ t
      let g1 := npPut g r (pfAdd (elf g b) (pf 1))
      Except.ok (npMapAt g1 r fun t x => pyMax x (some (elq minPoss t)))
    else Except.ok g
  else Except.ok g

/-- applyCorrection4c: sub annex 2, section 4(c); extends short higher gear
sequences downwards to the bracketing gear, subject to the per second lowest
possible gear. -/
def applyCorrection4c (InitialGears : List PyF) (PossibleGears : List (List PyF)) :
    Except String (List PyF) := do
  let minPoss ← maskedMins PossibleGears
  (List.range (InitialGears.length - 2)).foldlM (corr4cStep minPoss) InitialGears

/-! ## Claim C4: convergence of correction 4c within two applications -/

/-- A possible gears matrix whose rows all admit gears 1 to 5, so the lowest
possible gear is 1 at every second. -/
def pg4cAll : List (List PyF) :=
  (List.range 7).map fun _ => [pf 1, pf 2, pf 3, pf 4, pf 5]

/-- Staircase gear sequence on which 4c keeps collapsing one level per
application. -/
def ce4c0 : List PyF := [pf 0, pf 2, pf 3, pf 5, pf 5, pf 4, pf 0]

/-- Result of the first application of 4c to ce4c0. -/
def ce4c1 : List PyF := [pf 0, pf 2, pf 3, pf 4, pf 4, pf 4, pf 0]

/-- Result of the second application of 4c to ce4c0. -/
def ce4c2 : List PyF := [pf 0, pf 2, pf 3, pf 3, pf 3, pf 3, pf 0]

/-- Result of the third application of 4c to ce4c0: still changing. -/
def ce4c3 : List PyF := [pf 0, pf 2, pf 2, pf 2, pf 2, pf 2, pf 0]

/-- Claim C4, counterexample: applyCorrection4c is not idempotent after two
applications.  On the staircase 0 2 3 5 5 4 0 (all gears possible at every
second) the first application collapses the five plateau to 4, the second to 3,
and a third application still changes the sequence, to 2: each application
peels exactly one staircase level, so two applications do not reach a fixpoint
for every input. -/
theorem C4_counterexample :
    applyCorrection4c ce4c0 pg4cAll = Except.ok ce4c1 ∧
    applyCorrection4c ce4c1 pg4cAll = Except.ok ce4c2 ∧
    applyCorrection4c ce4c2 pg4cAll = Except.ok ce4c3 ∧ ce4c3 ≠ ce4c2 := by
  refine ⟨by rfl, by rfl, by rfl, by decide⟩

/-- Possible gears matrix for the representative trace: gears 1 to 3 possible
at every second. -/
def pg4cRep : List (List PyF) :=
  (List.range 9).map fun _ => [pf 1, pf 2, pf 3]

/-- Representative gear sequence: an acceleration ramp with a short gear 3
plateau bracketed by gear 2. -/
def rep4c0 : List PyF :=
  [pf 0, pf 1, pf 2, pf 3, pf 3, pf 2, pf 2, pf 2, pf 0]

/-- The sequence after one application of 4c to rep4c0 (the short plateau of
3s is collapsed to 2); applications two and three leave it unchanged. -/
def rep4c1 : List PyF :=
  [pf 0, pf 1, pf 2, pf 2, pf 2, pf 2, pf 2, pf 2, pf 0]

/-- Claim C4, amended: the third application of 4c is a no op on representative
traces (here a trace where the first application does collapse a short high
gear plateau and the sequence is then stable), but not for every gear sequence
and possible gears matrix: as the staircase counterexample shows, 4c collapses
at most one staircase level per application, so convergence within two
applications is a property of realistic traces, not of all inputs. -/
theorem C4_third_application_noop_representative :
    applyCorrection4c rep4c0 pg4cRep = Except.ok rep4c1 ∧
    applyCorrection4c rep4c1 pg4cRep = Except.ok rep4c1 ∧
    applyCorrection4c rep4c1 pg4cRep = Except.ok rep4c1 := by
  refine ⟨by rfl, by rfl, by rfl⟩

/-! ## identify_phases (main module, lines 200 to 371) -/

def PHASE_TOO_SHORT : ℕ := 0
def PHASE_STANDSTILL : ℕ := 1
def PHASE_ACCELERATION : ℕ := 2
def PHASE_ACCELERATION_FROM_STANDSTILL : ℕ := 3
def PHASE_DECELERATION : ℕ := 4
def PHASE_DECELERATION_TO_STANDSTILL : ℕ := 5
def PHASE_CONSTANT_SPEED : ℕ := 6

/-- Running sum of a natural number list. -/
def cumsumN (l : List ℕ) : List ℕ :=
  (l.foldl (fun (st : ℕ × List ℕ) x => (st.1 + x, st.2 ++ [st.1 + x])) (0, [])).2

/-- Output record of identify_phases. -/
structure PhaseResult where
  Phases : List ℕ
  PhaseValues : List ℕ
  PhaseStarts : List ℕ
  PhaseEnds : List ℕ
  PhaseLengths : List ℕ
  InStandStill : List ℕ
  InAcceleration : List ℕ
  InAccelerationFromStandstill : List ℕ
  InDeceleration : List ℕ
  InDecelerationToStandstill : List ℕ
  InConstantSpeed : List ℕ
  InAccelerationAnyDuration : List ℕ
deriving Repr, DecidableEq

/-- identify_phases: classifies each second of the resampled trace.  Faithful
quirks kept from the source: the slope classification of second t uses the
speed difference towards t + 1, so the last second stays unclassified (tag 0)
whenever its speed is at least 1; np.where(...) - 1 produces index -1 for the
first diff entry but the subsequent intersection with the nonnegative speed
indices drops it; PhaseLengths undercounts the first phase by one (its length
is end - 0 instead of end + 1); and the too short reclassification passes its
standstill exclusion as the third positional argument of np.intersect1d, which
is the assume unique flag, so only constant speed phases are exempt. -/
def identify_phases (TraceTimesCount : ℕ) (RequiredVehicleSpeeds : List PQ) :
    PhaseResult := Id.run do
  let n := TraceTimesCount
  let v := RequiredVehicleSpeeds
  let dd : List PQ := List.zipWith PQ.sub v ((0 : PQ) :: v).dropLast
  let mut Phases : List ℕ := List.replicate n 0
  let ge1 := idxWhere (fun x => PQ.leb 1 x) v 0
  let lt1 := idxWhere (fun x => PQ.ltb x 1) v 0
  Phases := npPut Phases lt1 PHASE_STANDSTILL
  let shiftIdx (p : PQ → Bool) : List ℕ :=
    (idxWhere p dd 0).filterMap fun k => if k = 0 then none else some (k - 1)
  Phases := npPut Phases (interIdx ge1 (shiftIdx fun x => PQ.ltb 0 x)) PHASE_ACCELERATION
  Phases := npPut Phases (interIdx ge1 (shiftIdx fun x => PQ.leb x 0)) PHASE_DECELERATION
  Phases := npPut Phases (interIdx ge1 (shiftIdx fun x => PQ.leb x.absq 0)) PHASE_CONSTANT_SPEED
  let InAccelerationAnyDuration :=
    npPut (List.replicate n 0) (wheren (fun p => p == PHASE_ACCELERATION) Phases) PHASE_STANDSTILL
  let PhaseEnds : List ℕ :=
    (whereIdx (n - 1) fun t => eln Phases t ≠ eln Phases (t + 1)) ++ [n - 1]
  let PhaseLengths : List ℕ := List.zipWith (· - ·) PhaseEnds ((0 : ℕ) :: PhaseEnds).dropLast
  let mut PhaseValues : List ℕ := PhaseEnds.map (eln Phases)
  let PreviousPhaseValues : List ℕ := prevShift PhaseValues 0
  let NextPhaseValues : List ℕ := npAppend (PhaseValues.drop 1) 0
  PhaseValues := npPut PhaseValues
    (interIdx (wheren (fun p => p == PHASE_ACCELERATION) PhaseValues)
      (wheren (fun p => p == PHASE_STANDSTILL) PreviousPhaseValues))
    PHASE_ACCELERATION_FROM_STANDSTILL
  PhaseValues := npPut PhaseValues
    (interIdx (wheren (fun p => p == PHASE_DECELERATION) PhaseValues)
      (wheren (fun p => p == PHASE_STANDSTILL) NextPhaseValues))
    PHASE_DECELERATION_TO_STANDSTILL
  -- the standstill exclusion of the source lands on the assume unique flag of
  -- np.intersect1d and is ignored; only the constant speed exclusion acts:
  PhaseValues := npPut PhaseValues
    (interIdx (wheren (fun x => x ≤ 2) PhaseLengths)
      (wheren (fun p => p ≠ PHASE_CONSTANT_SPEED) PhaseValues))
    PHASE_TOO_SHORT
  let mut PhaseStarts : List ℕ := cumsumN ((1 : ℕ) :: PhaseLengths.dropLast)
  PhaseStarts := PhaseStarts.set 0 0
  let PhaseChanges : List ℕ := npPut (List.replicate n 0) PhaseStarts 1
  let PhasesF : List ℕ := (cumsumN PhaseChanges).map fun c => eln PhaseValues (c - 1)
  let flag (ps : List ℕ) : List ℕ := PhasesF.map fun p => if p ∈ ps then 1 else 0
  return { Phases := PhasesF
           PhaseValues := PhaseValues
           PhaseStarts := PhaseStarts
           PhaseEnds := PhaseEnds
           PhaseLengths := PhaseLengths
           InStandStill := flag [PHASE_STANDSTILL]
           InAcceleration := flag [PHASE_ACCELERATION, PHASE_ACCELERATION_FROM_STANDSTILL]
           InAccelerationFromStandstill := flag [PHASE_ACCELERATION_FROM_STANDSTILL]
           InDeceleration := flag [PHASE_DECELERATION, PHASE_DECELERATION_TO_STANDSTILL]
           InDecelerationToStandstill := flag [PHASE_DECELERATION_TO_STANDSTILL]
           InConstantSpeed := flag [PHASE_CONSTANT_SPEED]
           InAccelerationAnyDuration := InAccelerationAnyDuration }

/-- Round half to even of a PQ with positive denominator, as an integer. -/
def roundHalfEvenZ (x : PQ) : ℤ :=
  let d : ℤ := x.den
  let fl := Int.fdiv x.num d
  let r := x.num - fl * d
  if 2 * r < d then fl
  else if d < 2 * r then fl + 1
  else if fl % 2 = 0 then fl else fl + 1

/-- np.around to 4 decimal places (numpy rounds half to even). -/
def npAround4 (x : PQ) : PQ := ⟨roundHalfEvenZ (PQ.mul x ⟨10000, 1⟩), 10000⟩

/-- get_accelerations (main module, lines 767 to 789): per second speed
difference over 3.6 (trace times are one second apart), a trailing zero, all
rounded to 4 decimals. -/
def get_accelerations (RequiredVehicleSpeeds : List PQ) : List PQ :=
  (((List.zipWith PQ.sub (RequiredVehicleSpeeds.drop 1) RequiredVehicleSpeeds).map
    fun d => PQ.div d ⟨18, 5⟩) ++ [0]).map npAround4

/-! ## Claim C5: too short phase reclassification -/

/-- A trace with an interior standstill phase of length 1 (speed 0 at second
4) surrounded by constant speed driving. -/
def ce5Speeds : List PQ := [5, 5, 5, 5, 0, 5, 5, 5, 5]

/-- Claim C5, code bug evaluation: on ce5Speeds the single standstill second 4
is first tagged standstill, its phase has length 1, and the too short
reclassification then retags it PHASE_TOO_SHORT (0): the final per sample tag
at second 4 is 0 and no sample carries the standstill tag, although the claim
(and the clearly intended third where clause in the source) keeps standstill
phases of length at most 2.  The culprit: the standstill exclusion is passed
as the third positional argument of np.intersect1d, where it is consumed as
the assume unique flag. -/
theorem C5_standstill_reclassified_too_short :
    (identify_phases 9 ce5Speeds).PhaseValues = [6, 0, 0, 6, 0] ∧
    eln (identify_phases 9 ce5Speeds).Phases 4 = PHASE_TOO_SHORT ∧
    (identify_phases 9 ce5Speeds).InStandStill =
      [0, 0, 0, 0, 0, 0, 0, 0, 0] := by
  refine ⟨by rfl, by rfl, by rfl⟩

/-! ## load_full_power_curve (main module, lines 374 to 473) -/

/-- python list element assignment lst[i] = v: IndexError when i is not an
existing position (python lists do not grow on assignment). -/
def pyListAssign (l : List α) (i : ℕ) (v : α) : Except String (List α) :=
  if i < l.length then Except.ok (l.set i v)
  else Except.error ("IndexError: list assignment index out of range")

/-- np.round(x * 10) / 10 with the numpy half to even rule. -/
def npRound1 (x : PQ) : PQ := ⟨roundHalfEvenZ (PQ.mul x ⟨10, 1⟩), 10⟩

/-- The private helper ExponentialDecayingASM (main module, lines 374 to 387).
The first two branches are algebraic and modelled exactly; the third branch is
transcendental (exp and log of the decay formula) and is modelled as a
failure marker.  No theorem below ever reaches the third branch: the C9
evaluation uses AdditionalSafetyMargin0 = 0, which takes the first branch. -/
def ExponentialDecayingASM (EngineSpeed ASM0 StartEngineSpeed EndEngineSpeed : PQ) :
    Except String PQ :=
  if PQ.eqv ASM0 0 then Except.ok 0
  else if PQ.leb EndEngineSpeed StartEngineSpeed then Except.ok ASM0
  else Except.error ("transcendental ASM decay branch not modelled")

/-- Column j of a rectangular matrix; IndexError when the column is missing. -/
def matCol (m : List (List PQ)) (j : ℕ) : Except String (List PQ) :=
  m.mapM fun row =>
    match row.get? j with
    | some x => Except.ok x
    | none => Except.error ("IndexError: column out of range")

/-- load_full_power_curve: splits the full load power curve into engine speed,
power and additional safety margin columns.  For a two column curve the source
initialises ASM to the empty python list and then assigns ASM[i] inside the
loop, which raises IndexError at i = 0 for every nonempty curve (and for an
empty curve the subsequent np.append with axis 1 fails on the dimension
mismatch). -/
def load_full_power_curve (FullPowerCurve : List (List PQ))
    (AdditionalSafetyMargin0 StartEngineSpeed EndEngineSpeed : PQ) :
    Except String (List PQ × List PQ × List PQ × Bool) := do
  let rows := FullPowerCurve.length
  let cols := (FullPowerCurve.headD []).length
  let fpc ←
    if cols = 2 then do
      let asmFinal ← (List.range rows).foldlM (fun (asmL : List PQ) i => do
        let row0 ←
          match FullPowerCurve.get? 0 with
          | some r => Except.ok r
          | none => Except.error ("IndexError: empty power curve")
        let e ←
          match row0.get? i with
          | some x => Except.ok x
          | none => Except.error ("IndexError: row 0 has no element i")
        let a ← ExponentialDecayingASM e AdditionalSafetyMargin0
          StartEngineSpeed EndEngineSpeed
        pyListAssign asmL i (npRound1 a)) ([] : List PQ)
      if rows = 0 then
        Except.error ("ValueError: np.append axis dimension mismatch")
      else
        Except.ok (List.zipWith (fun row a => row ++ [a]) FullPowerCurve asmFinal)
    else
      Except.ok FullPowerCurve
  let c0 ← matCol fpc 0
  let c1 ← matCol fpc 1
  let c2 ← matCol fpc 2
  return (c0, c1, c2, true)

/-! ## Claim C9: two column full load power curve -/

/-- A two column full load power curve (engine speed, power), the optional
additional safety margin column omitted. -/
def ce9Curve : List (List PQ) := [[1000, 50], [2000, 100]]

/-- Claim C9, code bug evaluation: load_full_power_curve raises IndexError on
every two column power curve because ASM is initialised to the empty python
list and ASM[i] = ... assigns into it; with AdditionalSafetyMargin0 = 0 the
legacy decay value itself is computed fine (branch one, value 0), and the
failure is precisely the list assignment at i = 0. -/
theorem C9_two_column_curve_raises :
    load_full_power_curve ce9Curve 0 1500 2000 =
      Except.error ("IndexError: list assignment index out of range") := by
  rfl

/-! ## check_minimum_engine_speed and check_gear_max_vehicle_speed
(main module, lines 792 to 875 and 1161 to 1180) -/

/-- check_minimum_engine_speed: the schedula input domain guard of
define_minimum_engine_speed_in_motion.  Appends one boolean per validation
(four manufacturer override caps at twice n min drive set, then the start
phase check) and returns their conjunction; the start phase check indexes
the trace at TimeEndOfStartPhase + 1, an IndexError when that is out of
range.  It reports failures through logging only and never raises besides
that indexing. -/
def start_phase_zero_speed_check (InStandstillMinDrive : List ℕ)
    (TimeEndOfStartPhase : ℤ) : Except String Bool :=
  if 0 ≤ TimeEndOfStartPhase then do
    let x ← pyGetI InStandstillMinDrive (TimeEndOfStartPhase + 1)
    pure (!(x == 0))
  else pure true

def check_minimum_engine_speed (MinDrivesI : List (List PQ))
    (CalculatedMinDriveEngineSpeedGreater2nd : PQ)
    (MinDriveEngineSpeedGreater2ndAccel MinDriveEngineSpeedGreater2ndDecel : PQ)
    (MinDriveEngineSpeedGreater2ndAccelStartPhase : PQ)
    (MinDriveEngineSpeedGreater2ndDecelStartPhase : PQ)
    (RequiredVehicleSpeeds : List PQ) (TimeEndOfStartPhase : ℤ)
    (TraceTimes : List PQ) (NoOfGearsFinal : ℕ) (Accelerations : List PQ) :
    Except String Bool := do
  let cap := PQ.mul 2 CalculatedMinDriveEngineSpeedGreater2nd
  let c1 := !(PQ.ltb cap MinDriveEngineSpeedGreater2ndAccel)
  let c2 := !(PQ.ltb cap MinDriveEngineSpeedGreater2ndDecel)
  let c3 := !(PQ.ltb cap MinDriveEngineSpeedGreater2ndDecelStartPhase)
  let c4 := !(PQ.ltb cap MinDriveEngineSpeedGreater2ndAccelStartPhase)
  let InStandstillMinDrive : List ℕ :=
    npPut (List.replicate RequiredVehicleSpeeds.length 0)
      (idxWhere (fun x => PQ.eqv x 0) RequiredVehicleSpeeds 0) 1
  let c5 ← start_phase_zero_speed_check InStandstillMinDrive TimeEndOfStartPhase
  return c1 && c2 && c3 && c4 && c5

/-- check_gear_max_vehicle_speed: the schedula input domain guard of
determine_maximum_engine_speed; reports failure (returns False, logging an
error) exactly when the gear at maximum vehicle speed could not be determined
(GearAtMaxVehicleSpeed = 0, the sentinel left when the available power curve
never crosses the road load curve). -/
def check_gear_max_vehicle_speed (EngineSpeedLimitVMax Max95EngineSpeedFinal : PQ)
    (PowerCurveEngineSpeeds PowerCurvePowers : List PQ) (RatedEnginePowerF : PQ)
    (NdvRatios : List PQ) (GearAtMaxVehicleSpeed : ℕ)
    (RequiredVehicleSpeeds : List PQ) (MaxVehicleSpeed : PQ)
    (NoOfGearsFinal : ℕ) : Bool :=
  if GearAtMaxVehicleSpeed = 0 then false else true

/-! ## Claim C7: validation failures reported, dependent computation gated -/

/-- Claim C7, counterexample: the claim promises that an oversized minimum
drive override makes the domain check return failure with no exception; but
when TimeEndOfStartPhase + 1 lies outside the trace the check raises
IndexError instead of returning False, exception included, even though the
override check had already failed.  Concrete input: override 3000 against
calculated value 1000 (cap 2000) and TimeEndOfStartPhase 0 on a one second
trace. -/
theorem C7_exception_on_out_of_range_start_phase :
    check_minimum_engine_speed [] 1000 3000 0 0 0 [0] 0 [] 5 [] =
      Except.error ("index out of bounds") := by
  rfl

/-- Claim C7, amended: provided the start phase time is disabled (negative) or
its successor second lies inside the trace, an oversized minimum drive
override for gears above 2nd makes check_minimum_engine_speed return ok False
(a reported validation failure, not an exception), and a zero gear at maximum
vehicle speed makes check_gear_max_vehicle_speed return False; schedula then
skips the gated computation.  The exception case of the counterexample forces
the added range proviso. -/
theorem C7_domain_checks_report_failure
    (MinDrivesI : List (List PQ)) (calcv accel decel accelSP decelSP : PQ)
    (v : List PQ) (teosp : ℤ) (tt : List PQ) (nog : ℕ) (acc : List PQ)
    (hover : PQ.ltb (PQ.mul 2 calcv) accel = true ∨
      PQ.ltb (PQ.mul 2 calcv) decel = true ∨
      PQ.ltb (PQ.mul 2 calcv) decelSP = true ∨
      PQ.ltb (PQ.mul 2 calcv) accelSP = true)
    (hrange : teosp < 0 ∨ teosp + 1 < (v.length : ℤ))
    (elv max95 : PQ) (pcs pcp : List PQ) (rep : PQ) (ndv : List PQ)
    (vmax : PQ) (nog2 : ℕ) :
    (∃ b : Bool, check_minimum_engine_speed MinDrivesI calcv accel decel
        accelSP decelSP v teosp tt nog acc = Except.ok b ∧ b = false) ∧
    check_gear_max_vehicle_speed elv max95 pcs pcp rep ndv 0 v vmax nog2
      = false := by
  constructor
  · have hc5 : ∃ b5 : Bool,
        start_phase_zero_speed_check
          (npPut (List.replicate v.length 0)
            (idxWhere (fun x => PQ.eqv x 0) v 0) 1) teosp = Except.ok b5 := by
      by_cases h0 : 0 ≤ teosp
      · rcases hrange with hneg | hlt
        · omega
        · have hlen : (npPut (List.replicate v.length 0)
              (idxWhere (fun x => PQ.eqv x 0) v 0) 1).length = v.length := by
            simp [npPut]
          have htn : ((teosp + 1).toNat : ℤ) = teosp + 1 := Int.toNat_of_nonneg (by omega)
          rcases hx : (npPut (List.replicate v.length 0)
              (idxWhere (fun x => PQ.eqv x 0) v 0) 1).get? (teosp + 1).toNat with _ | x
          · exfalso
            rw [List.get?_eq_none] at hx
            omega
          · have hpy : pyGetI (npPut (List.replicate v.length 0)
                (idxWhere (fun x => PQ.eqv x 0) v 0) 1) (teosp + 1) = Except.ok x := by
              unfold pyGetI
              simp only [hlen]
              rw [if_neg (show ¬ (teosp + 1 < (0 : ℤ)) by omega)]
              rw [if_pos ⟨by omega, by omega⟩, hx]
            refine ⟨!(x == 0), ?_⟩
            unfold start_phase_zero_speed_check
            rw [if_pos h0, hpy]
            rfl
      · exact ⟨true, by unfold start_phase_zero_speed_check; rw [if_neg h0]; rfl⟩
    rcases hc5 with ⟨b5, hb5⟩
    refine ⟨!(PQ.ltb (PQ.mul 2 calcv) accel) && !(PQ.ltb (PQ.mul 2 calcv) decel) &&
      !(PQ.ltb (PQ.mul 2 calcv) decelSP) && !(PQ.ltb (PQ.mul 2 calcv) accelSP) && b5,
      ?_, ?_⟩
    · unfold check_minimum_engine_speed
      dsimp only
      rw [hb5]
      rfl
    · rcases hover with h | h | h | h <;> simp [h]
  · rfl

/-- Claim C7, witness: concrete oversized accel override (3000 against a cap
of 2000) with a two second trace and TimeEndOfStartPhase = 0, whose successor
second is inside the trace; both checks report failure without exception. -/
theorem C7_domain_checks_report_failure_witness :
    (∃ b : Bool, check_minimum_engine_speed [] 1000 3000 0 0 0 [0, 0] 0 [] 5 []
        = Except.ok b ∧ b = false) ∧
    check_gear_max_vehicle_speed 0 0 [] [] 0 [] 0 [0, 0] 0 5 = false :=
  C7_domain_checks_report_failure [] 1000 3000 0 0 0 [0, 0] 0 [] 5 []
    (Or.inl (by decide)) (Or.inr (by decide)) 0 0 [] [] 0 [] 0 5

/-! ## determine_possible_gears (main module, lines 1404 to 1800)

Only the computation of PossibleGearsByEngineSpeed (lines 1542 to 1641) is
embedded: after line 1641 the source touches only the clutch matrices and the
adjusted engine speeds, never the possible gears matrix. -/

/-- Entry of a PQ matrix, zero out of range. -/
def elm (m : List (List PQ)) (t g : ℕ) : PQ := elq (m.getD t []) g

/-- Entry of a PyF matrix, NaN out of range. -/
def elfm (m : List (List PyF)) (t g : ℕ) : PyF := elf (m.getD t []) g

/-- Write value v into column g of the rows listed in ts
(np.put on a column view of a 2d array). -/
def putColAt (M : List (List PyF)) (g : ℕ) (ts : List ℕ) (v : PyF) :
    List (List PyF) :=
  M.mapIdx fun t row => if t ∈ ts then row.set g v else row

/-- The walk back of BeforeAccelerationStarts: while the index is at least 3
and the acceleration there is positive, step back one second (lines 1573 to
1578).  Fuel bounded by the start index itself. -/
def walkBackGo (Accelerations : List PQ) : ℕ → ℕ → ℕ
  | b, 0 => b
  | b, fuel + 1 =>
    if 3 ≤ b ∧ PQ.ltb 0 (elq Accelerations b) then
      walkBackGo Accelerations (b - 1) fuel
    else b

/-- The advanced first gear engage windows: for each acceleration from
standstill phase, the standstill seconds from the walked back
BeforeAccelerationStart up to (excluding) the phase start (lines 1569 to
1595).  Phase starts of such phases are at least 1, since a standstill phase
precedes them. -/
def advanced_engage_windows (PhaseStarts PhaseValues : List ℕ)
    (Accelerations : List PQ) : List (List ℕ) :=
  let afs := (wheren (fun p => p == PHASE_ACCELERATION_FROM_STANDSTILL)
    PhaseValues).map (eln PhaseStarts)
  afs.map fun s =>
    let b := walkBackGo Accelerations (s - 1) (s - 1)
    (List.range s).filter fun t => b ≤ t

/-- RequiredEngineSpeeds = NdvRatios * speeds, with the idling speed
substituted at the standstill seconds. -/
def reqMatrix (T G : ℕ) (NdvRatios RequiredVehicleSpeeds : List PQ)
    (ssIdx : List ℕ) (IdlingEngineSpeed : PQ) : List (List PQ) :=
  ((List.range T).map fun t => (List.range G).map fun g =>
    PQ.mul (elq NdvRatios g) (elq RequiredVehicleSpeeds t)).mapIdx
    fun t row => if t ∈ ssIdx then row.map (fun _ => IdlingEngineSpeed) else row

/-- Per gear writing of the neutral value 0 at the standstill seconds, over
the all NaN starting matrix. -/
def m1fold (T G : ℕ) (ssIdx : List ℕ) : List (List PyF) :=
  (List.range G).foldl (fun M g => putColAt M g ssIdx (pf 0))
    ((List.range T).map fun _ => List.replicate G none)

/-- Advanced first gear engage: gear 1 marked possible on each window. -/
def m2fold (windows : List (List ℕ)) (M : List (List PyF)) :
    List (List PyF) :=
  windows.foldl (fun M w => putColAt M 0 w (pf 1)) M

/-- The 3.3a / 3.3b selection for gear g: outside standstill, engine speed
inside the per gear envelope. -/
def m3sel (T : ℕ) (notSS : List ℕ) (MinDrives req : List (List PQ))
    (ceiling : PQ) (g : ℕ) : List ℕ :=
  interIdx (interIdx notSS
    (whereIdx T fun t => PQ.leb (elm MinDrives t g) (elm req t g)))
    (whereIdx T fun t => PQ.leb (elm req t g) ceiling)

/-- Per gear writing of the 3.3a / 3.3b admissibility. -/
def m3fold (T G : ℕ) (notSS : List ℕ) (MinDrives req : List (List PQ))
    (GearAtMaxVehicleSpeedFinal : ℕ)
    (Max95EngineSpeedFinal EngineSpeedAtGearAtMaxRequiredSpeed : PQ)
    (M : List (List PyF)) : List (List PyF) :=
  (List.range G).foldl (fun M g =>
    putColAt M g (m3sel T notSS MinDrives req
      (if g < GearAtMaxVehicleSpeedFinal then Max95EngineSpeedFinal
        else EngineSpeedAtGearAtMaxRequiredSpeed) g) (pf 1)) M

/-- The engine speed part of determine_possible_gears: the required engine
speeds per gear (with idling speed substituted at standstill) and the
PossibleGearsByEngineSpeed matrix; entries are NaN (not admissible), 0 (only
written at standstill: neutral admissible) or 1 (admissible).  Returns the
matrix together with the AccelerationFromStandstillStarts. -/
def determine_possible_gears_matrix (RequiredVehicleSpeeds NdvRatios : List PQ)
    (TraceTimesCount NoOfGearsFinal : ℕ) (PhaseValues InStandStill : List ℕ)
    (IdlingEngineSpeed : PQ) (PhaseStarts : List ℕ) (Accelerations : List PQ)
    (MinDrives : List (List PQ)) (GearAtMaxVehicleSpeedFinal : ℕ)
    (Max95EngineSpeedFinal EngineSpeedAtGearAtMaxRequiredSpeed : PQ) :
    List (List PyF) × List ℕ :=
  let T := TraceTimesCount
  let G := NoOfGearsFinal
  let ssIdx := wheren (fun x => x == 1) InStandStill
  let notSS := wheren (fun x => x == 0) InStandStill
  let req := reqMatrix T G NdvRatios RequiredVehicleSpeeds ssIdx
    IdlingEngineSpeed
  -- per gear: neutral value 0 at standstill seconds
  let M1 := m1fold T G ssIdx
  -- advanced first gear engage: gear 1 marked possible just before launch
  let M2 := m2fold (advanced_engage_windows PhaseStarts PhaseValues
    Accelerations) M1
  -- 3.3a / 3.3b: engine speed inside the per gear envelope
  let M3 := m3fold T G notSS MinDrives req GearAtMaxVehicleSpeedFinal
    Max95EngineSpeedFinal EngineSpeedAtGearAtMaxRequiredSpeed M2
  -- 3.3c: gear 1 also possible below its floor
  let M4 := putColAt M3 0 (interIdx notSS
    (whereIdx T fun t => PQ.ltb (elm req t 0) (elm MinDrives t 0))) (pf 1)
  let afs := (wheren (fun p => p == PHASE_ACCELERATION_FROM_STANDSTILL)
    PhaseValues).map (eln PhaseStarts)
  (M4, afs)

/-! ## determine_possible_gears_based_available_powers
(main module, lines 1913 to 1989) -/

/-- NaN propagating multiplication. -/
def pfMul : PyF → PyF → PyF
  | some a, some b => some (PQ.mul a b)
  | _, _ => none

/-- One step of np.argmax: keep the running best pair unless the candidate
is strictly greater (so ties keep the first occurrence). -/
def amfStep (best p : ℕ × PQ) : ℕ × PQ :=
  if PQ.ltb best.2 p.2 then p else best

/-- np.argmax: index of the first occurrence of the maximum. -/
def argmaxFirst (l : List PQ) : ℕ :=
  (l.enum.foldl amfStep (0, l.headD 0)).1

/-- Write 1 at the flat Fortran order position ind of a T x G matrix
(np.unravel_index with order F: row = ind mod T, column = ind div T);
IndexError outside the matrix. -/
def unravelPutOne (T G : ℕ) (M : List (List PyF)) (ind : ℕ) :
    Except String (List (List PyF)) :=
  if ind < T * G then
    Except.ok (M.mapIdx fun t row =>
      if t = ind % T then row.set (ind / T) (pf 1) else row)
  else Except.error ("np.unravel_index out of range")

/-- Entry of the argmax matrix K of the power admissibility fallback:
available power times engine speed admissibility, with NaN replaced by the -1
sentinel. -/
def kEntry (AvailablePowers PossibleGearsByEngineSpeed : List (List PyF))
    (t g : ℕ) : PQ :=
  match pfMul (elfm AvailablePowers t g) (elfm PossibleGearsByEngineSpeed t g) with
  | some x => x
  | none => pqI (-1)

/-- determine_possible_gears_based_available_powers: gears 1 and 2 are always
power admissible, higher gears need available power at least the required
power, and the fallback marks, per second, the gear of maximal available
power among the engine speed admissible gears (NaN products count as -1 in
the argmax). -/
def determine_possible_gears_based_available_powers
    (AvailablePowers : List (List PyF)) (requiredPowersF : List PyF)
    (TraceTimesCount NoOfGearsFinal : ℕ)
    (PossibleGearsByEngineSpeed : List (List PyF)) :
    Except String (List (List PyF)) := do
  let T := TraceTimesCount
  let G := NoOfGearsFinal
  let P0 : List (List PyF) := (List.range T).map fun _ =>
    (List.range G).map fun g => if g < 2 then pf 1 else none
  let P1 := (List.range G).foldl (fun P g =>
    if 2 ≤ g then
      putColAt P g (whereIdx T fun t =>
        pfGe (elfm AvailablePowers t g) (elf requiredPowersF t)) (pf 1)
    else P) P0
  -- K = AvailablePowers * PossibleGearsByEngineSpeed, NaN replaced by -1
  let K : List (List PQ) := (List.range T).map fun t => (List.range G).map fun g =>
    kEntry AvailablePowers PossibleGearsByEngineSpeed t g
  let I : List ℕ := K.map fun row => G - argmaxFirst row.reverse - 1
  (List.range T).foldlM (fun P t => unravelPutOne T G P (eln I t * T + t)) P1

/-! ## determine_initial_gears (main module, lines 1992 to 2115) -/

/-- The combined and scaled possible gears matrix of determine_initial_gears:
outside standstill the engine speed matrix is multiplied elementwise by the
available power matrix (NaN propagates), then column g is scaled by g + 1. -/
def combine_possible_gears (InStandStill : List ℕ)
    (PossibleGearsByEngineSpeed PowersMatrix : List (List PyF)) :
    List (List PyF) :=
  let combined := PossibleGearsByEngineSpeed.mapIdx fun t row =>
    if eln InStandStill t == 0 then
      row.mapIdx fun g x => pfMul x (elfm PowersMatrix t g)
    else row
  combined.map fun row => row.mapIdx fun g x => pfMul (pf ((g : ℤ) + 1)) x

/-- Maximum of a PQ row; np.max raises on an empty row. -/
def rowMaxPQ (row : List PQ) : Except String PQ :=
  match row with
  | [] => Except.error ("np.max of empty row")
  | x :: xs => Except.ok (xs.foldl pqMax x)

/-- The FromGear1 loop of determine_initial_gears (lines 2098 to 2113): walks
the gear sequence; gear 1 arms the FromGear1 state, a gear 2 while armed and
with the gear 2 engine speed below the 1st to 2nd floor and gear 1 possible
is forced back to gear 1, anything else disarms.  The python local FromGear1
is unbound until the first gear that is not 2, so a leading gear 2 raises
UnboundLocalError. -/
def fromGear1Loop (InitialRequiredEngineSpeeds : List (List PQ))
    (MinDrive1stTo2nd : PQ) (PossibleGears : List (List PyF))
    (gears0 : List PQ) : Except String (List PQ) := do
  let st ← (List.range gears0.length).foldlM
    (fun (st : List PQ × Option Bool) i => do
      let gs := st.1
      if PQ.eqv (elq gs i) 1 then
        pure (gs, some true)
      else if PQ.eqv (elq gs i) 2 then
        match st.2 with
        | none => Except.error ("UnboundLocalError: FromGear1")
        | some f =>
          if f ∧ PQ.ltb (elm InitialRequiredEngineSpeeds i 1) MinDrive1stTo2nd ∧
              pfEq (elfm PossibleGears i 0) (pf 1) then
            pure (gs.set i 1, some f)
          else pure (gs, some false)
      else pure (gs, some false)) (gears0, none)
  return st.1

/-- determine_initial_gears: highest combined possible gear per second (NaN
rows degrade to -2 in the maximum), gear 1 forced at acceleration from
standstill starts, gear 2 suppression inside each such phase strictly before
the second preceding the first gear 2 choice (the source keeps the MATLAB
style index minus 1, so the second immediately before the first gear 2 is
left as is), then the FromGear1 hold. -/
def pqOrNeg2 (x : PyF) : PQ :=
  match x with
  | some q => q
  | none => pqI (-2)

/-- The gear 2 suppression of one acceleration from standstill phase:
python gears[0 : first2 - 1] = 1, with the slice [0 : -1] when the first
gear 2 sits at relative position 0 (the MATLAB one based find kept). -/
def suppressGear2Phase (gs : List PQ) (phase : List ℕ) : List PQ :=
  let phaseGears := phase.map (elq gs)
  let w2 := whereIdx phaseGears.length fun k => PQ.eqv (elq phaseGears k) 2
  match w2 with
  | [] => gs
  | k :: _ =>
    let upTo := if k = 0 then phaseGears.length - 1 else k - 1
    (List.range upTo).foldl (fun acc rel => acc.set (eln phase rel) 1) gs

def determine_initial_gears (InStandStill : List ℕ) (NoOfGearsFinal : ℕ)
    (PossibleGearsByEngineSpeed : List (List PyF))
    (PossibleGearsByAvailablePowersWithTotalSafetyMargin : List (List PyF))
    (AccelerationFromStandstillStarts : List ℕ) (PhaseEnds PhaseValues : List ℕ)
    (InitialRequiredEngineSpeeds : List (List PQ)) (MinDrive1stTo2nd : PQ) :
    Except String (List PQ × List (List PyF)) := do
  let PG := combine_possible_gears InStandStill PossibleGearsByEngineSpeed
    PossibleGearsByAvailablePowersWithTotalSafetyMargin
  let K : List (List PQ) := PG.map fun row => row.map pqOrNeg2
  let gearsMax ← K.mapM rowMaxPQ
  let gears1 := npPut gearsMax AccelerationFromStandstillStarts 1
  let ends := (wheren (fun p => p == PHASE_ACCELERATION_FROM_STANDSTILL)
    PhaseValues).map (eln PhaseEnds)
  let phases := (AccelerationFromStandstillStarts.zip ends).map fun se =>
    (List.range (se.2 + 1)).filter fun t => se.1 ≤ t
  let gears2 := phases.foldl suppressGear2Phase gears1
  let gearsF ← fromGear1Loop InitialRequiredEngineSpeeds MinDrive1stTo2nd PG gears2
  return (gearsF, PG)

/-! ## Claim C8: gear 2 suppression in acceleration from standstill phases -/

/-- Engine speed possible gears for the C8 scenario: standstill second 0,
then all three gears admissible at seconds 1 and 2, gears 1 and 2 at second
3. -/
def c8eng : List (List PyF) :=
  [[pf 0, pf 0, pf 0], [pf 1, pf 1, pf 1], [pf 1, pf 1, pf 1], [pf 1, pf 1, none]]

/-- Power admissibility for the C8 scenario: everything admissible. -/
def c8pow : List (List PyF) := (List.range 4).map fun _ => [pf 1, pf 1, pf 1]

/-- Engine speeds for the C8 scenario (unused by the failing branch). -/
def c8req : List (List PQ) := (List.range 4).map fun _ => [0, 0, 0]

/-- The combined and scaled possible gears matrix of the C8 scenario. -/
def c8PG : List (List PyF) :=
  [[pf 0, pf 0, pf 0], [pf 1, pf 2, pf 3], [pf 1, pf 2, pf 3], [pf 1, pf 2, none]]

/-- Claim C8, code bug evaluation: the acceleration from standstill phase is
seconds 1 to 3 with gears 1, 3, 2; the first gear 2 choice is at second 3, so
the claim requires every earlier second of the phase to become gear 1, but
the source assigns gears[0 : first2 - 1] = 1 (a MATLAB 1 based find kept in 0
based python), leaving the second immediately before the first gear 2 choice
untouched: second 2 keeps gear 3. -/
theorem C8_gear_before_first_second_gear_not_suppressed :
    determine_initial_gears [1, 0, 0, 0] 3 c8eng c8pow [1] [0, 3] [1, 3] c8req 0 =
      Except.ok ([pqI 0, pqI 1, pqI 3, pqI 2], c8PG) ∧
    (pqI 3 : PQ) ≠ pqI 1 := by
  refine ⟨by rfl, by decide⟩

/-! ## Claim C6: possible gear non emptiness after the power fallback -/

/-- Available powers for the C6 counterexample: the only engine speed
admissible gear (gear 3) has available power -2, below the -1 sentinel that
replaces NaN in the fallback argmax. -/
def c6avail : List (List PyF) := [[pf 10, pf 10, pf (-2)]]

/-- Engine speed possible gears for the C6 counterexample: only gear 3. -/
def c6eng : List (List PyF) := [[none, none, pf 1]]

/-- Claim C6, counterexample: with required power 0 at the only second, gear 3
(available power -2) is not power admissible, and the fallback argmax picks
gear 2 (the -1 NaN sentinel beats -2), which is not engine speed admissible;
the combined matrix row is entirely NaN: no gear is flagged possible, and the
initial gear degrades to the -2 sentinel. -/
theorem C6_counterexample_no_possible_gear :
    determine_possible_gears_based_available_powers c6avail [pf 0] 1 3 c6eng =
      Except.ok [[pf 1, pf 1, none]] ∧
    combine_possible_gears [0] c6eng [[pf 1, pf 1, none]] = [[none, none, none]] ∧
    determine_initial_gears [0] 3 c6eng [[pf 1, pf 1, none]] [] [] [] [[0, 0, 0]] 0 =
      Except.ok ([pqI (-2)], [[none, none, none]]) := by
  refine ⟨by rfl, by rfl, by rfl⟩

/-! ## Claim C3: neutral at standstill -/

/-- Speed trace for the C3 counterexample: four standstill seconds, then an
acceleration from standstill. -/
def c3v : List PQ := [0, 0, 0, 0, 1, 2, 3, 4, 5, 5, 5, 5]

/-- Minimum drive engine speeds for the C3 scenario. -/
def c3md : List (List PQ) := (List.range 12).map fun _ => [900, 810, 1288]

/-- The phase classification of the C3 trace. -/
def c3ph : PhaseResult := identify_phases 12 c3v

/-- The engine speed possible gears matrix of the C3 trace. -/
def c3M : List (List PyF) :=
  (determine_possible_gears_matrix c3v [100, 60, 40] 12 3 c3ph.PhaseValues
    c3ph.InStandStill 900 c3ph.PhaseStarts (get_accelerations c3v) c3md 2
    5000 5500).1

/-- Claim C3, counterexample: second 2 of the C3 trace is a standstill second
(speed 0, standstill phase tag), yet the possible gears matrix flags gear 1
as possible there (value 1 in the first column): the advanced first gear
engage window before the acceleration from standstill start makes gear 1
admissible at standstill, so neutral is not the only admissible gear at every
standstill second, contradicting the claim. -/
theorem C3_counterexample_gear1_possible_at_standstill :
    eln c3ph.InStandStill 2 = 1 ∧ eln c3ph.Phases 2 = PHASE_STANDSTILL ∧
    elfm c3M 2 0 = pf 1 ∧ pf 1 ≠ pf 0 := by
  refine ⟨by rfl, by rfl, by rfl, by decide⟩

/-! ## applyCorrection4b (corrections module, lines 136 to 338) -/

/-- python int(x): truncation towards zero (denominators are positive). -/
def pqTrunc (x : PQ) : ℤ := Int.tdiv x.num x.den

/-- Sequential scatter assignment l[ts[i]] = vs[i] for equal length lists. -/
def scatterList (l : List α) (ts : List ℕ) (vs : List α) : List α :=
  (ts.zip vs).foldl (fun acc tv => acc.set tv.1 tv.2) l

/-- Cumulative sums of a natural list (np.cumsum). -/
def cumsumList (l : List ℕ) : List ℕ := cumsumN l

/-- The per phase body of applyCorrection4b. -/
def corr4bPhase (NoOfGears : ℕ)
    (st : List PyF × List ℕ × List ℕ) (phase : List ℕ) :
    Except String (List PyF × List ℕ × List ℕ) := do
  let (g, c4a, c4d) := st
  match phase with
  | [] => Except.error ("IndexError: empty phase in correction 4b")
  | p0 :: _ =>
  let L := phase.length
  let gears0 := phase.map (elf g)
  let gearsOrig := gears0
  -- downshifts limited by one above the minimum of the later gears above 1
  let great1 := gears0.map fun x => if pfLe x (pf 1) then none else x
  let gma := ((my_cummin great1.reverse).map fun x => pfAdd x (pf 1)).reverse
  let gears1 := List.zipWith pyMin gears0 gma
  -- number of uses of the current gear within the last 10 seconds
  let cum : List (List ℕ) := (List.range NoOfGears).map fun gg =>
    cumsumList (gears1.map fun x => if pfEq x (pf ((gg : ℤ) + 1)) then 1 else 0)
  let nbr : List (List ℕ) := cum.map fun c =>
    List.zipWith (· - ·) c ((List.replicate 10 0 ++ c).take L)
  let gwn : List PQ := gears1.map fun x => (x.getD 1)
  let nbrOfUseGear ← (List.range L).mapM fun t => do
    let index : ℤ := Int.ofNat t * NoOfGears + pqTrunc (elq gwn t) - 1
    if h : 0 ≤ index ∧ index < (NoOfGears : ℤ) * L then
      let i := index.toNat
      Except.ok (eln (nbr.getD (i % NoOfGears) []) (i / NoOfGears))
    else Except.error ("np.unravel_index out of range in correction 4b")
  -- downshifts limited by gears used at least twice recently
  let used2 : List PyF := (List.range L).map fun t =>
    let x := elf gears1 t
    if pfLe x (pf 1) then none
    else if eln nbrOfUseGear t < 2 then none else x
  let gma2 := (my_cummin used2.reverse).reverse
  let gears2 := List.zipWith pyMin gears1 gma2
  let gearsPrev0 := prevShift gears2 (elf gears2 0)
  let tail2 := gears2.drop 1
  let gearsNext ← npInsert tail2 (-1) (elf gears2 (L - 1))
  let gearsPrev := if 1 ≤ p0 then gearsPrev0.set 0 (elf g (p0 - 1)) else gearsPrev0
  let great1b := gears2.map fun x => if pfLe x (pf 1) then none else x
  -- flag positions whose downshift must be revisited after correction 4a
  let m1 := interIdx (whereIdx L fun t => pfLt (elf great1b t) (elf gearsNext t))
    (whereIdx L fun t => pfGt (elf gearsPrev t) (elf great1b t))
  let m2 := whereIdx L fun t => eln c4a (eln phase t) == 1
  let finalVal := npPut (phase.map (eln c4a)) (unionIdx L m1 m2) 1
  let c4a' := scatterList c4a phase finalVal
  let gears3 := gears2.mapIdx fun t x => if elf gearsOrig t = none then none else x
  let g' := scatterList g phase gears3
  -- Annex 2, 5(b): note two step downshifts at the phase begin
  let c4d' :=
    if 1 ≤ p0 ∧ pfLt (pfSub (elf g' p0) (elf g' (p0 - 1))) (pf (-1)) then
      c4d.set (p0 - 1) 1
    else c4d
  return (g', c4a', c4d')

/-- applyCorrection4b: corrects downshifts during or at the begin of
acceleration phases towards the reference gear and records the deferred 4s
and 4t flags. -/
def applyCorrection4b (InitialGears : List PyF)
    (Corr4bToBeDoneAfterCorr4a Corr4bToBeDoneAfterCorr4d : List ℕ)
    (PhaseValues PhaseStarts PhaseEnds : List ℕ) (NoOfGearsFinal : ℕ) :
    Except String (List PyF × List ℕ × List ℕ) := do
  let sel := unionIdx PhaseValues.length
    (wheren (fun p => p == PHASE_ACCELERATION) PhaseValues)
    (wheren (fun p => p == PHASE_ACCELERATION_FROM_STANDSTILL) PhaseValues)
  let phases := sel.map fun i =>
    (List.range (eln PhaseEnds i + 1)).filter fun t => eln PhaseStarts i ≤ t
  phases.foldlM (corr4bPhase NoOfGearsFinal)
    (InitialGears, Corr4bToBeDoneAfterCorr4a, Corr4bToBeDoneAfterCorr4d)

/-! ## applyCorrection4a (corrections module, lines 341 to 747)

The loop body splits into six stages, applied in source order inside a loop
that runs at most twice the trace length and stops as soon as an iteration
changes nothing (np.array_equal with equal nan True). -/

/-- Previous gear with NaN before the first second
(np.insert(g, 0, nan)[: -1]). -/
def prevF (g : List PyF) (t : ℕ) : PyF := if t = 0 then none else elf g (t - 1)

/-- Gear two seconds earlier with NaN padding
(np.insert(g, [0, 0], nan)[: -2]). -/
def prevPrevF (g : List PyF) (t : ℕ) : PyF := if t ≤ 1 then none else elf g (t - 2)

/-- The quirky next shift np.insert(l, -1, nan)[1 :]: the next element,
except NaN at position n - 2 and the last element at position n - 1. -/
def nextQuirkF (g : List PyF) (t : ℕ) : PyF :=
  if t + 2 = g.length then none
  else if t + 1 = g.length then elf g t
  else elf g (t + 1)

/-- The same quirky next shift on the minimum possible gears. -/
def nextQuirkQ (minPoss : List PQ) (t : ℕ) : PyF :=
  if t + 2 = minPoss.length then none
  else if t + 1 = minPoss.length then some (elq minPoss t)
  else some (elq minPoss (t + 1))

/-- Stage one of 4a: single second upshifts by one or two gears bracketed by
a downshift are reduced one step, sequentially in ascending position order
(lines 414 to 443). -/
def corr4aStage1 (minPoss : List PQ) (g : List PyF) : List PyF :=
  let n := g.length
  let nextI := npAppend (g.drop 1) none
  let d1 := npDiff g
  let d2 := npDiff nextI
  let m := n - 1
  let ups := (unionIdx m (unionIdx m
    (interIdx (whereIdx m fun k => pfEq (elf d1 k) (pf 1))
      (whereIdx m fun k => pfEq (elf d2 k) (pf (-1))))
    (interIdx (whereIdx m fun k => pfEq (elf d1 k) (pf 1))
      (whereIdx m fun k => pfEq (elf d2 k) (pf (-2)))))
    (interIdx (whereIdx m fun k => pfEq (elf d1 k) (pf 2))
      (whereIdx m fun k => pfEq (elf d2 k) (pf (-1))))).map (· + 1)
  ups.foldl (fun g t =>
    if pfGe (pfSub (elf g t) (pf 1)) (some (elq minPoss t)) ∧
        pfGe (pfSub (elf g t) (pf 1)) (pf 1) then
      g.set t (pfSub (elf g t) (pf 1))
    else g) g

/-- Acceleration phase start seconds (np.diff(np.insert(InAcceleration, 0,
0)) equal to 1). -/
def accelStartAt (InAcceleration : List ℕ) (t : ℕ) : Bool :=
  eln InAcceleration t == 1 && (if t = 0 then 0 else eln InAcceleration (t - 1)) == 0

/-- Shared base mask of stages two and three of 4a: a single second gear use
during acceleration or constant speed, compared against the quirky next
shift by cmp, with the next second minimum possible gear satisfied. -/
def singlesBase (minPoss : List PQ) (InAcceleration InConstantSpeed : List ℕ)
    (cmp : PyF → PyF → Bool) (g : List PyF) : List ℕ :=
  let n := g.length
  whereIdx n fun t =>
    (eln InAcceleration t == 1 || eln InConstantSpeed t == 1) &&
    (elf g t ≠ none) &&
    ((pfEq (elf g t) (prevF g t) && accelStartAt InAcceleration t) ||
      pfGt (elf g t) (prevF g t)) &&
    cmp (elf g t) (nextQuirkF g t) &&
    pfGe (elf g t) (nextQuirkQ minPoss t)

/-- Stage two of 4a: a single second gear whose next gear is higher is
extended forwards (lines 486 to 544); the shifted assignment raises a
broadcast error if a single sits on the last second (cannot happen for masks
produced here, kept for fidelity). -/
def corr4aStage2 (minPoss : List PQ) (InAcceleration InConstantSpeed : List ℕ)
    (g : List PyF) : Except String (List PyF) := do
  let n := g.length
  let base := singlesBase minPoss InAcceleration InConstantSpeed pfLt g
  -- exclude singles immediately after singles
  let s1 := base.filter fun t => !(decide ((t - 1) ∈ base) && decide (1 ≤ t))
  -- exclude singles immediately after downshifts
  let s2 := s1.filter fun t => pfGe (prevF g t) (prevPrevF g t)
  if s2 ≠ [] then
    let lhs := whereIdx n fun t => decide (1 ≤ t) && decide ((t - 1) ∈ s2)
    let vals := s2.map (elf g)
    npAssignPairs g lhs vals
  else Except.ok g

/-- Stage three of 4a: a single second gear whose next gear is lower is
extended forwards (lines 546 to 594); exclusion order differs from stage
two, faithful to the source. -/
def corr4aStage3 (minPoss : List PQ) (InAcceleration InConstantSpeed : List ℕ)
    (g : List PyF) : Except String (List PyF) := do
  let n := g.length
  let base := singlesBase minPoss InAcceleration InConstantSpeed pfGt g
  let s1 := base.filter fun t => pfGe (prevF g t) (prevPrevF g t)
  if s1 ≠ [] then
    let s2 := s1.filter fun t => !(decide ((t - 1) ∈ s1) && decide (1 ≤ t))
    let lhs := whereIdx n fun t => decide (1 ≤ t) && decide ((t - 1) ∈ s2)
    let vals := s2.map (elf g)
    npAssignPairs g lhs vals
  else Except.ok g

/-- Stage four of 4a: the second second of an acceleration phase falls back
to the gear of the first when the gear one step up appeared immediately
(lines 596 to 641). -/
def corr4aStage4 (minPoss : List PQ) (Corr4a InAccelAnyDur : List ℕ)
    (g : List PyF) : List PyF :=
  let n := g.length
  let prevAAD := fun t => if t = 0 then 0 else eln InAccelAnyDur (t - 1)
  let prevPrevNot := fun t => if t = 0 then 0 else 1 - prevAAD (t - 1)
  let prevG := fun t => if t = 0 then pf 0 else elf g (t - 1)
  let prevPrevG := fun t => if t ≤ 1 then pf 0 else elf g (t - 2)
  let prevC := fun t => if t = 0 then 0 else eln Corr4a (t - 1)
  let idx := whereIdx n fun t =>
    prevPrevNot t == 1 && prevAAD t == 1 && eln InAccelAnyDur t == 1 &&
    pfGe (prevPrevG t) (prevG t) && pfEq (pfAdd (prevG t) (pf 1)) (elf g t) &&
    pfGe (pfSub (elf g t) (pf 1)) (some (elq minPoss t)) && prevC t == 0
  npMapAt g idx fun _ x => pfSub x (pf 1)

/-- Stage five of 4a: gears shall not be skipped during acceleration phases;
a more than one step upshift is reduced one step where the lower gear is
possible and the previous second is not flagged for deferred 4b (lines 643
to 675). -/
def corr4aStage5 (minPoss : List PQ) (Corr4a InAcceleration : List ℕ)
    (g : List PyF) : List PyF :=
  let n := g.length
  let upshift := fun t => if t = 0 then pfSub (elf g 0) (elf g 0)
    else pfSub (elf g t) (elf g (t - 1))
  let prevC := fun t => if t = 0 then 0 else eln Corr4a (t - 1)
  let mask := whereIdx n fun t =>
    pfGt (prevF g t) (pf 0) && eln InAcceleration t == 1 &&
    pfGt (upshift t) (pf 1) &&
    pfGe (pfSub (elf g t) (pf 1)) (some (elq minPoss t)) && prevC t == 0
  npMapAt g mask fun _ x => pfSub x (pf 1)

/-- The more than five seconds constant speed test of stage six of 4a:
second t and the five following seconds are all constant speed (reads past
the trace end count as not constant speed). -/
def constSpeed6 (InConstantSpeed : List ℕ) (t : ℕ) : Bool :=
  eln InConstantSpeed t == 1 &&
  ((List.range 5).all fun k0 =>
    (if t + k0 + 1 < InConstantSpeed.length then eln InConstantSpeed (t + k0 + 1)
      else 0) == 1)

/-- Stage six of 4a: at a transition from acceleration into constant speed,
an upshift of more than one step (more than two steps when the next six
seconds are all constant speed) is reduced one step (lines 677 to 745). -/
def corr4aStage6 (minPoss : List PQ) (InAcceleration InConstantSpeed : List ℕ)
    (g : List PyF) : List PyF :=
  let n := g.length
  let upshift := fun t => if t = 0 then pfSub (elf g 0) (elf g 0)
    else pfSub (elf g t) (elf g (t - 1))
  let prevInAccel := fun t => if t = 0 then 0 else eln InAcceleration (t - 1)
  let mask := whereIdx n fun t =>
    pfGt (prevF g t) (pf 1) && prevInAccel t == 1 && eln InConstantSpeed t == 1 &&
    ((pfGt (upshift t) (pf 1) && !(constSpeed6 InConstantSpeed t)) ||
      (pfGt (upshift t) (pf 2) && constSpeed6 InConstantSpeed t)) &&
    pfGe (pfSub (elf g t) (pf 1)) (some (elq minPoss t))
  npMapAt g mask fun _ x => pfSub x (pf 1)

/-- One full iteration of the 4a loop body: the six stages in source order. -/
def corr4aBody (minPoss : List PQ) (Corr4a InAcceleration InConstantSpeed
    InAccelAnyDur : List ℕ) (g : List PyF) : Except String (List PyF) := do
  let g1 := corr4aStage1 minPoss g
  let g2 ← corr4aStage2 minPoss InAcceleration InConstantSpeed g1
  let g3 ← corr4aStage3 minPoss InAcceleration InConstantSpeed g2
  let g4 := corr4aStage4 minPoss Corr4a InAccelAnyDur g3
  let g5 := corr4aStage5 minPoss Corr4a InAcceleration g4
  let g6 := corr4aStage6 minPoss InAcceleration InConstantSpeed g5
  return g6

/-- The 4a loop: runs the body until nothing changes, at most twice the
trace length many times. -/
def corr4aLoopGo (minPoss : List PQ) (Corr4a InAcceleration InConstantSpeed
    InAccelAnyDur : List ℕ) : ℕ → List PyF → List PyF → Except String (List PyF)
  | 0, _, g => Except.ok g
  | fuel + 1, prev, g =>
    if listEqNan prev g then Except.ok g
    else do
      let g' ← corr4aBody minPoss Corr4a InAcceleration InConstantSpeed
        InAccelAnyDur g
      corr4aLoopGo minPoss Corr4a InAcceleration InConstantSpeed InAccelAnyDur
        fuel g g'

/-- applyCorrection4a: sub annex 2, section 4(a). -/
def applyCorrection4a (InitialGears : List PyF)
    (Corr4bToBeDoneAfterCorr4a : List ℕ) (PossibleGears : List (List PyF))
    (InAcceleration InConstantSpeed InAccelerationAnyDuration : List ℕ) :
    Except String (List PyF) := do
  let minPoss ← maskedMins PossibleGears
  corr4aLoopGo minPoss Corr4bToBeDoneAfterCorr4a InAcceleration InConstantSpeed
    InAccelerationAnyDuration (2 * InitialGears.length)
    (List.replicate InitialGears.length none) InitialGears

/-! ## applyCorrection4d (corrections module, lines 821 to 1000) -/

/-- python list element assignment with wrap around for negative indices;
IndexError becomes Except.error. -/
def pySetI (l : List α) (i : ℤ) (v : α) : Except String (List α) :=
  let n : ℤ := l.length
  let j : ℤ := if i < 0 then i + n else i
  if 0 ≤ j ∧ j < n then Except.ok (l.set j.toNat v)
  else Except.error ("index out of bounds")

/-- np.max over a float list: NaN as soon as any entry is NaN (the maximum
reduction propagates NaN); only used on nonempty windows. -/
def npMaxF : List PyF → PyF
  | [] => none
  | x :: xs => xs.foldl (fun a b => match a, b with
      | some p, some q => some (pqMax p q)
      | _, _ => none) x

/-- The transition condition of 4d with python short circuit evaluation: the
read of the gear two seconds after the phase end is reached only when the
earlier disjuncts fail and can raise IndexError at the trace end. -/
def corr4dCond (g : List PyF) (gmax : PyF) (p0 pe TraceTimesCount : ℕ) :
    Except String Bool :=
  if ¬ 2 ≤ p0 then Except.ok false
  else if ¬ (pfGt gmax (elf g (p0 - 1)) ∧ pfGt (elf g (p0 - 1)) (pf 0)) then
    Except.ok false
  else if ¬ pe + 2 ≤ TraceTimesCount then Except.ok false
  else if pfGt gmax (elf g (pe + 1)) then Except.ok true
  else do
    let x ← pyGetI g ((pe : ℤ) + 2)
    if pfGt gmax x then Except.ok true
    else if pfEq (elf g (pe + 1)) (pf 0) then Except.ok true
    else if pfEq x (pf 0) then Except.ok true
    else Except.ok false

/-- The per phase body of applyCorrection4d: skip phases already corrected,
cap the transition upshift, then extend the phase by one following second of
nearly constant or rising speed and apply the running minimum with neutral
seconds pinned. -/
def corr4dPhase (NoOfGears TraceTimesCount : ℕ) (speeds : List PQ)
    (st : List PyF × List ℕ) (phase : List ℕ) :
    Except String (List PyF × List ℕ) := do
  let (g, c4d) := st
  match phase with
  | [] => Except.error ("ValueError: zero size array reduction in correction 4d")
  | p0 :: _ =>
  if phase.any fun p => eln c4d p ≠ 0 then Except.ok (g, c4d)
  else do
    let pe := phase.getLastD 0
    let gmax := npMaxF ((phase.take 3).map (elf g))
    let cond ← corr4dCond g gmax p0 pe TraceTimesCount
    let (g1, c4d1) :=
      if cond then
        let step := pfSub gmax (elf g (p0 - 1))
        if pfEq step (pf 1) then
          (scatterList g phase (phase.map fun p => pyMin (elf g p) (elf g (p0 - 1))),
            npPut c4d phase 1)
        else if ((List.range (NoOfGears + 1)).filter fun k => 2 ≤ k).any
            (fun k => pfEq step (pf k)) then
          (scatterList g phase
            (phase.map fun p => pyMin (elf g p) (pfAdd (elf g (p - 1)) (pf 1))),
            npPut c4d phase 1)
        else (g, c4d)
      else (g, c4d)
    let extQ ←
      if pe + 2 ≤ speeds.length then
        if PQ.leb 1 (elq speeds (pe + 1)) then do
          let v2 ← pyGetI speeds ((pe : ℤ) + 2)
          let d := PQ.sub v2 (elq speeds (pe + 1))
          Except.ok (PQ.ltb d.absq ⟨1, 1000⟩ || PQ.ltb ⟨0, 1⟩ d)
        else Except.ok false
      else Except.ok false
    let phaseExt := if extQ then phase ++ [pe + 1] else phase
    let gears := phaseExt.map (elf g1)
    let idx0 := idxWhere (fun x => pfEq x (pf 0)) gears none
    let gearsA := npPut gears idx0 (pf (NoOfGears : ℤ))
    let gearsB := npPut (my_cummin gearsA) idx0 (pf 0)
    Except.ok (scatterList g1 phaseExt gearsB, c4d1)

/-- applyCorrection4d: no upshift within deceleration phases; transition
upshifts towards the phase are capped relative to the gear before the phase. -/
def applyCorrection4d (InitialGears : List PyF)
    (PhaseStarts PhaseEnds PhaseValues : List ℕ) (corr4dAppliedBefore : List ℕ)
    (TraceTimesCount NoOfGearsFinal : ℕ) (RequiredVehicleSpeeds : List PQ) :
    Except String (List PyF × List ℕ) := do
  let sel := unionIdx PhaseValues.length
    (wheren (fun p => p == PHASE_DECELERATION) PhaseValues)
    (wheren (fun p => p == PHASE_DECELERATION_TO_STANDSTILL) PhaseValues)
  let phases := sel.map fun i =>
    (List.range (eln PhaseEnds i + 1)).filter fun t => eln PhaseStarts i ≤ t
  phases.foldlM (corr4dPhase NoOfGearsFinal TraceTimesCount RequiredVehicleSpeeds)
    (InitialGears, corr4dAppliedBefore)

/-! ## applyCorrection4e (corrections module, lines 1003 to 1143)

The function reads InitialGears but never assigns to it: only ClutchDisengaged
is updated, and the unchanged gear list is returned alongside. -/

/-- The per phase body of applyCorrection4e: disengage the clutch at second
gear seconds with low engine speed inside the phase, and also at the one or
two directly preceding second gear seconds; the backward looks use python
wrap around indexing. -/
def corr4ePhase (g : List PyF) (lows : List ℕ) (cd : List ℕ) (phase : List ℕ) :
    Except String (List ℕ) := do
  match phase with
  | [] => Except.error ("IndexError: empty phase in correction 4e")
  | p0 :: _ =>
  let pe := phase.getLastD 0
  let inph := lows.filter fun t => p0 ≤ t && t ≤ pe
  let cd1 := npPut cd inph 1
  match inph with
  | [] => Except.ok cd1
  | tc0 :: tcs =>
  let tc : ℤ := (tcs.foldl Nat.min tc0 : ℕ)
  let g1 ← pyGetI g (tc - 1)
  let cd2 ←
    if pfEq g1 (pf 2) then do
      let g2 ← pyGetI g (tc - 2)
      if pfNe g2 (pf 2) then pySetI cd1 (tc - 1) 1 else Except.ok cd1
    else Except.ok cd1
  if pfEq g1 (pf 2) then do
    let g2 ← pyGetI g (tc - 2)
    if pfEq g2 (pf 2) then do
      let g3 ← pyGetI g (tc - 3)
      if pfNe g3 (pf 2) then do
        let a ← pySetI cd2 (tc - 1) 1
        pySetI a (tc - 2) 1
      else Except.ok cd2
    else Except.ok cd2
  else Except.ok cd2

/-- applyCorrection4e: during deceleration phases the clutch is disengaged at
gear 2 seconds whose engine speed falls below 0.9 times the idling speed
(below the idling speed for deceleration to standstill); the gear sequence
itself is returned unmodified. -/
def applyCorrection4e (InitialGears : List PyF)
    (PhaseStarts PhaseEnds PhaseValues ClutchDisengaged : List ℕ)
    (InitialRequiredEngineSpeeds : List (List PQ)) (IdlingEngineSpeed : PQ)
    (Phases : List ℕ) : Except String (List PyF × List ℕ) := do
  let n := InitialGears.length
  let sel := unionIdx PhaseValues.length
    (wheren (fun p => p == PHASE_DECELERATION) PhaseValues)
    (wheren (fun p => p == PHASE_DECELERATION_TO_STANDSTILL) PhaseValues)
  let phases := sel.map fun i =>
    (List.range (eln PhaseEnds i + 1)).filter fun t => eln PhaseStarts i ≤ t
  let lows := interIdx (wheref (fun x => pfEq x (pf 2)) InitialGears)
    (unionIdx n
      (interIdx (wheren (fun p => p == PHASE_DECELERATION) Phases)
        (whereIdx n fun t => PQ.ltb (elm InitialRequiredEngineSpeeds t 1)
          (PQ.mul ⟨9, 10⟩ IdlingEngineSpeed)))
      (interIdx (wheren (fun p => p == PHASE_DECELERATION_TO_STANDSTILL) Phases)
        (whereIdx n fun t => PQ.ltb (elm InitialRequiredEngineSpeeds t 1)
          IdlingEngineSpeed)))
  let cd ← phases.foldlM (corr4ePhase InitialGears lows) ClutchDisengaged
  return (InitialGears, cd)

/-! ## applyCorrection4f (corrections module, lines 1146 to 1625) -/

/-- The Heinz Steven exceptional sequence at a deceleration to standstill:
a strictly falling staircase onto gear at most one is blanked to neutral. -/
def corr4fHST (InDecelToSS : List ℕ) (iMax i : ℕ) (g : List PyF) : List PyF :=
  if 1 ≤ i ∧ i + 6 ≤ iMax ∧
      ((List.range 7).all fun k => eln InDecelToSS (i - 1 + k) == 1) ∧
      pfGt (elf g (i - 1)) (elf g i) ∧ pfEq (elf g i) (elf g (i + 1)) ∧
      pfGt (elf g (i + 1)) (elf g (i + 2)) ∧ pfGt (elf g (i + 2)) (elf g (i + 3)) ∧
      pfGt (elf g (i + 3)) (pf 1) ∧ pfLe (elf g (i + 4)) (pf 1) ∧
      pfLe (elf g (i + 5)) (pf 1) then
    npPut g [i, i + 1, i + 2, i + 3] (pf 0)
  else g

/-- The four replacement branches of 4f for short gear sequences during
deceleration; returns the updated state and whether a replacement happened. -/
def corr4fReplaceStep (InDecel : List ℕ) (iMax i : ℕ) (g : List PyF)
    (cd : List ℕ) : List PyF × List ℕ × Bool :=
  if 3 ≤ i ∧ i + 4 ≤ iMax ∧
      ((List.range 7).all fun k => eln InDecel (i - 3 + k) == 1) ∧
      pfEq (elf g (i - 3)) (elf g (i - 2)) ∧ pfEq (elf g (i - 2)) (elf g (i - 1)) ∧
      pfNe (elf g (i - 1)) (elf g i) ∧ pfNe (elf g i) (elf g (i + 1)) ∧
      pfEq (elf g (i + 1)) (elf g (i + 2)) ∧ pfEq (elf g (i + 2)) (elf g (i + 3)) then
    (g.set i (pf 0), cd.set i 1, true)
  else if 3 ≤ i ∧ i + 5 ≤ iMax ∧
      ((List.range 8).all fun k => eln InDecel (i - 3 + k) == 1) ∧
      pfEq (elf g (i - 3)) (elf g (i - 2)) ∧ pfEq (elf g (i - 2)) (elf g (i - 1)) ∧
      pfNe (elf g (i - 1)) (elf g i) ∧ pfEq (elf g i) (elf g (i + 1)) ∧
      pfNe (elf g (i + 1)) (elf g (i + 2)) ∧ pfGt (elf g (i + 2)) (pf 0) ∧
      pfEq (elf g (i + 2)) (elf g (i + 3)) ∧ pfEq (elf g (i + 3)) (elf g (i + 4)) then
    ((g.set i (pf 0)).set (i + 1) (elf g (i + 2)), cd.set i 1, true)
  else if 3 ≤ i ∧ i + 3 ≤ iMax ∧
      ((List.range 2).all fun k => eln InDecel (i - 1 + k) == 1) ∧
      pfEq (elf g (i - 3)) (elf g (i - 2)) ∧ pfEq (elf g (i - 2)) (elf g (i - 1)) ∧
      pfEq (pfSub (elf g (i - 1)) (pf 1)) (elf g i) ∧
      ((pfEq (elf g i) (elf g (i + 1)) ∧
          pfEq (pfSub (elf g (i + 1)) (pf 1)) (elf g (i + 2))) ∨
        (pfEq (pfSub (elf g i) (pf 1)) (elf g (i + 1)) ∧
          pfEq (elf g (i + 1)) (elf g (i + 2)))) ∧
      pfGt (elf g (i + 2)) (pf 0) then
    ((g.set i (pf 0)).set (i + 1) (elf g (i + 2)), cd.set i 1, true)
  else if 3 ≤ i ∧ i + 3 ≤ iMax ∧
      ((List.range 2).all fun k => eln InDecel (i - 1 + k) == 1) ∧
      pfEq (elf g (i - 3)) (elf g (i - 2)) ∧ pfEq (elf g (i - 2)) (elf g (i - 1)) ∧
      (pfEq (pfSub (elf g (i - 1)) (pf 1)) (elf g i) ∨
        pfEq (pfSub (elf g (i - 1)) (pf 2)) (elf g i)) ∧
      pfGe (elf g i) (elf g (i + 1)) ∧ pfGe (elf g (i + 1)) (elf g (i + 2)) ∧
      pfLe (pfAdd (elf g (i + 2)) (pf 3)) (elf g (i - 1)) ∧
      pfGt (elf g (i + 2)) (pf 0) then
    ((g.set i (pf 0)).set (i + 1) (elf g (i + 2)), cd.set i 1, true)
  else (g, cd, false)

/-- The complementary second step of 4f after a replacement: chains of short
sequences behind the inserted neutral are flattened, comparing against the
per second maximum possible gear. -/
def corr4fSecondStep (gmax : List PQ) (iMax i : ℕ) (g : List PyF)
    (cd : List ℕ) : List PyF × List ℕ :=
  if 1 ≤ i ∧ i + 4 ≤ iMax ∧ pfGt (elf g (i - 1)) (pfAdd (elf g (i + 1)) (pf 1)) ∧
      pfEq (elf g i) (pf 0) ∧ pfEq (elf g (i + 1)) (elf g (i + 2)) ∧
      pfEq (pfSub (elf g (i + 2)) (pf 1)) (elf g (i + 3)) ∧
      pfGe (elf g (i + 3)) (elf g (i + 4)) ∧
      pfGe (pfAdd (elf g (i + 3)) (pf 2)) (some (elq gmax (i + 1))) ∧
      pfGt (elf g (i + 4)) (pf 0) then
    ((g.set (i + 1) (elf g (i + 3))).set (i + 2) (elf g (i + 3)), cd)
  else if 1 ≤ i ∧ i + 4 ≤ iMax ∧ pfGt (elf g (i - 1)) (pfAdd (elf g (i + 1)) (pf 1)) ∧
      pfEq (elf g i) (pf 0) ∧ pfEq (elf g (i + 1)) (elf g (i + 2)) ∧
      pfEq (pfSub (elf g (i + 2)) (pf 1)) (elf g (i + 3)) ∧
      pfGe (elf g (i + 3)) (elf g (i + 4)) ∧
      pfLt (pfAdd (elf g (i + 3)) (pf 2)) (some (elq gmax (i + 1))) ∧
      pfGt (elf g (i + 4)) (pf 0) then
    (((g.set (i + 1) (pf 0)).set (i + 2) (elf g (i + 4))).set (i + 3) (elf g (i + 4)),
      cd.set (i + 1) 1)
  else if 1 ≤ i ∧ i + 4 ≤ iMax ∧ pfGt (elf g (i - 1)) (pfAdd (elf g (i + 1)) (pf 1)) ∧
      pfEq (elf g i) (pf 0) ∧ pfEq (elf g (i + 1)) (elf g (i + 2)) ∧
      pfEq (pfSub (elf g (i + 2)) (pf 2)) (elf g (i + 3)) ∧
      pfGe (elf g (i + 3)) (elf g (i + 4)) ∧
      pfGe (pfAdd (elf g (i + 3)) (pf 2)) (some (elq gmax (i + 1))) ∧
      pfGt (elf g (i + 4)) (pf 0) then
    ((g.set (i + 1) (elf g (i + 3))).set (i + 2) (elf g (i + 3)), cd)
  else if 1 ≤ i ∧ i + 4 ≤ iMax ∧ pfGt (elf g (i - 1)) (pfAdd (elf g (i + 1)) (pf 1)) ∧
      pfEq (elf g i) (pf 0) ∧ pfEq (elf g (i + 1)) (elf g (i + 2)) ∧
      pfEq (pfSub (elf g (i + 2)) (pf 2)) (elf g (i + 3)) ∧
      pfGe (elf g (i + 3)) (elf g (i + 4)) ∧
      pfLt (pfAdd (elf g (i + 3)) (pf 2)) (some (elq gmax (i + 1))) ∧
      pfGt (elf g (i + 4)) (pf 0) then
    (((g.set (i + 1) (pf 0)).set (i + 2) (elf g (i + 4))).set (i + 3) (elf g (i + 4)),
      cd.set (i + 1) 1)
  else (g, cd)

/-- The manufacturer option of 4f: replace the inserted neutral by the gear of
the following second for downshifts of up to three steps. -/
def corr4fSuppressStep (iMax i : ℕ) (g : List PyF) (cd : List ℕ) :
    Except String (List PyF × List ℕ) :=
  if 2 ≤ i ∧ i + 1 ≤ iMax then do
    let x ← pyGetI g ((i : ℤ) + 1)
    if pfLe (pfSub (elf g (i - 1)) (pf 3)) x then
      Except.ok (g.set i x, cd.set i 0)
    else Except.ok (g, cd)
  else Except.ok (g, cd)

/-- First last gear before standstill condition of 4f (one second use); the
read one past the trace end is a reachable IndexError of the source. -/
def corr4fCond1 (InDecelToSS ext : List ℕ) (iMax i : ℕ) (g : List PyF) :
    Except String Bool :=
  if ¬ (1 < i ∧ i + 1 ≤ iMax ∧
      ((List.range 2).all fun k => eln InDecelToSS (i - 1 + k) == 1)) then
    Except.ok false
  else do
    let e1 ← pyGetI ext ((i : ℤ) + 1)
    if ¬ (e1 == 1 ∧ pfGt (elf g i) (pf 0) ∧ pfNe (elf g (i - 1)) (elf g i)) then
      Except.ok false
    else do
      let x ← pyGetI g ((i : ℤ) + 1)
      Except.ok (pfNe (elf g i) x)

/-- Second last gear before standstill condition of 4f (two second use). -/
def corr4fCond2 (InDecelToSS ext : List ℕ) (iMax i : ℕ) (g : List PyF) :
    Except String Bool :=
  if ¬ (1 < i ∧ i + 2 ≤ iMax ∧
      ((List.range 3).all fun k => eln InDecelToSS (i - 1 + k) == 1)) then
    Except.ok false
  else do
    let e2 ← pyGetI ext ((i : ℤ) + 2)
    if ¬ (e2 == 1 ∧ pfGt (elf g i) (pf 0) ∧ pfNe (elf g (i - 1)) (elf g i) ∧
        pfEq (elf g i) (elf g (i + 1))) then
      Except.ok false
    else do
      let x ← pyGetI g ((i : ℤ) + 2)
      Except.ok (pfNe (elf g (i + 1)) x)

/-- One iteration of the 4f loop over the time index. -/
def corr4fStep (Suppress : Bool) (gmax : List PQ)
    (InDecelToSS InDecel ext : List ℕ) (iMax : ℕ)
    (st : List PyF × List ℕ) (i : ℕ) : Except String (List PyF × List ℕ) := do
  let (g0, cd0) := st
  let g1 := corr4fHST InDecelToSS iMax i g0
  let (g2, cd1, replaced) := corr4fReplaceStep InDecel iMax i g1 cd0
  let (g3, cd2) := if replaced then corr4fSecondStep gmax iMax i g2 cd1
    else (g2, cd1)
  let (g4, cd3) ←
    if replaced ∧ Suppress then corr4fSuppressStep iMax i g3 cd2
    else Except.ok (g3, cd2)
  let c1 ← corr4fCond1 InDecelToSS ext iMax i g4
  if c1 then Except.ok (g4.set i (pf 0), cd3.set i 0)
  else do
    let c2 ← corr4fCond2 InDecelToSS ext iMax i g4
    if c2 then
      Except.ok ((g4.set i (pf 0)).set (i + 1) (pf 0), (cd3.set i 0).set (i + 1) 0)
    else Except.ok (g4, cd3)

/-- The vectorised epilogue of 4f: downshifts to first gear during
deceleration to standstill become neutral, an engaged first gear at the phase
begin becomes neutral with disengaged clutch, and a disengaged inserted
neutral followed by an engaged neutral is engaged again. -/
def corr4fFinal (InDecelToSS : List ℕ) (g : List PyF) (cd : List ℕ) :
    List PyF × List ℕ :=
  let n := g.length
  let prevD := prevShift InDecelToSS 0
  let sel1 := whereIdx n fun t => eln prevD t == 1 && eln InDecelToSS t == 1 &&
    pfEq (elf g t) (pf 1)
  let g1 := npPut g sel1 (pf 0)
  let gearPrev := prevShift g1 (pf 0)
  let sel2 := whereIdx n fun t => eln prevD t == 0 && pfNe (elf gearPrev t) (pf 1) &&
    eln InDecelToSS t == 1 && pfEq (elf g1 t) (pf 1) && eln cd t == 0
  let begin1 := npPut (List.replicate n 0) sel2 1
  let w := wheren (fun v => v == 1) begin1
  let g2 := npPut g1 w (pf 0)
  let cd1 := npPut cd w 1
  let nextD := npAppend (InDecelToSS.drop 1) 0
  let gearNext := npAppend (g2.drop 1) (pf 0)
  let cdNext := npAppend (cd1.drop 1) 0
  let sel3 := whereIdx n fun t => eln InDecelToSS t == 1 && eln nextD t == 1 &&
    pfEq (elf g2 t) (pf 0) && pfEq (elf gearNext t) (pf 0) &&
    eln cd1 t == 1 && eln cdNext t == 0
  (g2, npPut cd1 sel3 0)

/-- applyCorrection4f: one and two second gear sequences during deceleration
are replaced by neutral or merged, with the Heinz Steven exceptions and the
standstill epilogue. -/
def applyCorrection4f (InitialGears : List PyF) (ClutchDisengaged : List ℕ)
    (SuppressGear0DuringDownshifts : Bool) (PossibleGears : List (List PyF))
    (InStandStill InDecelerationToStandstill InDeceleration : List ℕ) :
    Except String (List PyF × List ℕ) := do
  let iMax := InitialGears.length
  let gmax ← maskedMaxs PossibleGears
  let ext := ((List.range (iMax - 1)).reverse).foldl
    (fun e i => if pfEq (elf InitialGears i) (pf 0) && eln e (i + 1) == 1
      then e.set i 1 else e) InStandStill
  let st ← (List.range iMax).foldlM
    (corr4fStep SuppressGear0DuringDownshifts gmax InDecelerationToStandstill
      InDeceleration ext iMax) (InitialGears, ClutchDisengaged)
  return corr4fFinal InDecelerationToStandstill st.1 st.2

/-! ## apply_corrections (main module, lines 2138 to 2495)

The engine threads the gear list, the clutch flags, the per gear clutch
matrices and the persistent 4d marker through two fixed passes of the ordered
step sequence 4b, 4a, 4s, 4c, 4c, 4d, 4t, 4e, 4f.  appendCorrectionCells is
called after every step; its debug string building is abstracted to its two
computational effects: the ValueError raised by int on a NaN gear, and the
record of the call label and pass number accumulated in the log. -/

/-- _next_n_gears_are_higher of the main module: position i stays enabled iff
none of the n following gears (staying two short of the trace end) is less
than or equal to the gear at i. -/
def next_n_gears_are_higher (n : ℕ) (gears : List PyF) : List ℕ :=
  (List.range gears.length).map fun i =>
    if (List.range n).any (fun k0 => i + k0 + 2 ≤ gears.length &&
        pfLe (elf gears (i + k0 + 1)) (elf gears i)) then 0 else 1

/-- appendCorrectionCells, abstracted: fails like int(nan) when a gear is NaN,
otherwise appends the (label, pass) record. -/
def appendCC (g : List PyF) (label : String) (nbr : ℕ)
    (log : List (String × ℕ)) : Except String (List (String × ℕ)) :=
  if g.all fun x => x ≠ none then Except.ok (log ++ [(label, nbr)])
  else Except.error ("ValueError: cannot convert float NaN to integer")

/-- Zero out one column (python wrap around) of a flag matrix at a list of
rows. -/
def colZeroAtRows (m : List (List ℕ)) (rows : List ℕ) (col : ℤ) :
    Except String (List (List ℕ)) :=
  rows.foldlM (fun acc t => do
    let r1 ← pySetI (acc.getD t []) col 0
    Except.ok (acc.set t r1)) m

/-- The 4s interlude: re-examine the deferred short downshift flags, copy the
previous gear onto the flagged seconds and clear the per gear clutch entries
of the copied gears. -/
def glue4s (g : List PyF) (c4a : List ℕ) (cdbg cubg : List (List ℕ)) :
    Except String (List PyF × List (List ℕ) × List (List ℕ)) := do
  let n := g.length
  let dPrev := fun t => if t = 0 then none else pfSub (elf g t) (elf g (t - 1))
  let dNext := fun t => if t + 1 = n then none else pfSub (elf g (t + 1)) (elf g t)
  let sel1 := whereIdx n fun t => eln c4a t == 1 && pfLt (dPrev t) (pf 0) &&
    pfGt (dNext t) (pf 0)
  let c4a1 := npPut c4a sel1 1
  let enabled := next_n_gears_are_higher 6 g
  let c4a2 := npPut c4a1
    (interIdx (wheren (fun v => v == 1) c4a1) (wheren (fun v => v == 1) enabled)) 1
  let pos := wheren (fun v => v == 1) c4a2
  let vals ← pos.mapM fun t => pyGetI g ((t : ℤ) - 1)
  let g1 := scatterList g pos vals
  if pos.any fun t => elf g1 t = none then
    Except.error ("ValueError: cannot convert float NaN to integer")
  else do
    let cols := ((pos.map fun t => pqTrunc ((elf g1 t).getD 0) - 1).dedup)
    let cdbg1 ← cols.foldlM (fun m col => colZeroAtRows m pos col) cdbg
    let cubg1 ← cols.foldlM (fun m col => colZeroAtRows m pos col) cubg
    return (g1, cdbg1, cubg1)

/-- The 4t interlude: the deferred two step downshift flags still showing a
downshift by more than one gear either copy the following gear onto the
flagged second (manufacturer option) or insert neutral with disengaged
clutch. -/
def glue4t (Suppress : Bool) (g : List PyF) (c4d cd : List ℕ) :
    Except String (List PyF × List ℕ) := do
  let n := g.length
  let dNext := fun t => if t + 1 = n then none else pfSub (elf g (t + 1)) (elf g t)
  let sel := whereIdx n fun t => eln c4d t == 1 && pfLt (dNext t) (pf (-1))
  let c4d1 := npPut c4d sel 1
  if Suppress then
    let lhs := wheren (fun v => v == 1) c4d1
    let rhs := wheren (fun v => v == 1) ((0 : ℕ) :: c4d1)
    let vals ← rhs.mapM fun t => pyGetI g (t : ℤ)
    if lhs.length = vals.length then Except.ok (scatterList g lhs vals, cd)
    else Except.error ("broadcast shape mismatch")
  else
    Except.ok (npPut g (wheren (fun v => v == 1) c4d1) (pf 0),
      npPut cd (wheren (fun v => v == 1) c4d1) 1)

/-- The undo interlude after 4t: an inserted neutral whose neighbours show a
one step downshift is filled with the previous gear again and the clutch is
engaged there. -/
def glueUndo (g : List PyF) (cd : List ℕ) :
    Except String (List PyF × List ℕ) := do
  let n := g.length
  let prevI := prevShift g (pf 0)
  let lastg ← pyGetI g (-1)
  let nextI ← npInsert (g.drop 1) (-1) lastg
  let idx := whereIdx n fun t => pfEq (elf g t) (pf 0) &&
    pfEq (pfSub (elf prevI t) (pf 1)) (elf nextI t) && pfGt (elf nextI t) (pf 0)
  let vals ← idx.mapM fun t => pyGetI g ((t : ℤ) - 1)
  Except.ok (scatterList g idx vals, npPut cd idx 0)

/-- All inputs of the correction engine that stay constant over the passes. -/
structure CorrInputs where
  PhaseValues : List ℕ
  PhaseStarts : List ℕ
  PhaseEnds : List ℕ
  NoOfGearsFinal : ℕ
  PossibleGears : List (List PyF)
  InAcceleration : List ℕ
  InConstantSpeed : List ℕ
  InAccelerationAnyDuration : List ℕ
  TraceTimesCount : ℕ
  RequiredVehicleSpeeds : List PQ
  SuppressGear0DuringDownshifts : Bool
  InitialRequiredEngineSpeeds : List (List PQ)
  IdlingEngineSpeed : PQ
  Phases : List ℕ
  InStandStill : List ℕ
  InDecelerationToStandstill : List ℕ
  InDeceleration : List ℕ
deriving Repr

/-- The state threaded through the passes of the correction engine; c4a and
c4d hold the pass local deferred correction flags written by 4b. -/
structure CorrState where
  gears : List PyF
  clutch : List ℕ
  cdbg : List (List ℕ)
  cubg : List (List ℕ)
  c4dApplied : List ℕ
  c4a : List ℕ
  c4d : List ℕ
  log : List (String × ℕ)
deriving Repr

/-- Run one correction step, then record it like appendCorrectionCells does:
fail on a NaN gear, else append the (label, pass) entry to the log. -/
def withLog (label : String) (c : ℕ)
    (f : CorrState → Except String CorrState) (st : CorrState) :
    Except String CorrState := do
  let st1 ← f st
  let log1 ← appendCC st1.gears label c st.log
  return { st1 with log := log1 }

/-- The 4b step: fresh zero flag vectors each pass, as in the source. -/
def step4b (I : CorrInputs) (st : CorrState) : Except String CorrState := do
  let z : List ℕ := List.replicate st.gears.length 0
  let r ← applyCorrection4b st.gears z z I.PhaseValues I.PhaseStarts
    I.PhaseEnds I.NoOfGearsFinal
  return { st with gears := r.1, c4a := r.2.1, c4d := r.2.2 }

/-- The 4a step. -/
def step4a (I : CorrInputs) (st : CorrState) : Except String CorrState := do
  let g ← applyCorrection4a st.gears st.c4a I.PossibleGears I.InAcceleration
    I.InConstantSpeed I.InAccelerationAnyDuration
  return { st with gears := g }

/-- The 4s interlude as a step. -/
def step4s (st : CorrState) : Except String CorrState := do
  let r ← glue4s st.gears st.c4a st.cdbg st.cubg
  return { st with gears := r.1, cdbg := r.2.1, cubg := r.2.2 }

/-- One 4c application as a step. -/
def step4c (I : CorrInputs) (st : CorrState) : Except String CorrState := do
  let g ← applyCorrection4c st.gears I.PossibleGears
  return { st with gears := g }

/-- The 4d step; the applied markers persist across passes. -/
def step4d (I : CorrInputs) (st : CorrState) : Except String CorrState := do
  let r ← applyCorrection4d st.gears I.PhaseStarts I.PhaseEnds I.PhaseValues
    st.c4dApplied I.TraceTimesCount I.NoOfGearsFinal I.RequiredVehicleSpeeds
  return { st with gears := r.1, c4dApplied := r.2 }

/-- The 4t interlude as a step. -/
def step4t (I : CorrInputs) (st : CorrState) : Except String CorrState := do
  let r ← glue4t I.SuppressGear0DuringDownshifts st.gears st.c4d st.clutch
  return { st with gears := r.1, clutch := r.2 }

/-- The undo interlude followed by 4e (the source records no log entry for
the undo, so the two share one step). -/
def step4e (I : CorrInputs) (st : CorrState) : Except String CorrState := do
  let r0 ← glueUndo st.gears st.clutch
  let r ← applyCorrection4e r0.1 I.PhaseStarts I.PhaseEnds I.PhaseValues r0.2
    I.InitialRequiredEngineSpeeds I.IdlingEngineSpeed I.Phases
  return { st with gears := r.1, clutch := r.2 }

/-- The 4f step. -/
def step4f (I : CorrInputs) (st : CorrState) : Except String CorrState := do
  let r ← applyCorrection4f st.gears st.clutch I.SuppressGear0DuringDownshifts
    I.PossibleGears I.InStandStill I.InDecelerationToStandstill I.InDeceleration
  return { st with gears := r.1, clutch := r.2 }

/-- The labelled step sequence of one outer pass, in source order. -/
def passSteps (I : CorrInputs) :
    List (String × (CorrState → Except String CorrState)) :=
  [("4b", step4b I), ("4a", step4a I), ("4s", step4s), ("4c", step4c I),
    ("4c", step4c I), ("4d", step4d I), ("4t", step4t I), ("4e", step4e I),
    ("4f", step4f I)]

/-- One outer pass of apply_corrections: the ordered sequence 4b, 4a, 4s, 4c,
4c, 4d, 4t, 4e, 4f with an appendCorrectionCells record after each step. -/
def corrPass (I : CorrInputs) (c : ℕ) (st : CorrState) :
    Except String CorrState :=
  (passSteps I).foldlM (fun s p => withLog p.1 c p.2 s) st

/-- apply_corrections: the correction engine, two fixed outer passes. -/
def apply_corrections (InitialGears : List PyF) (ClutchDisengaged : List ℕ)
    (ClutchDisengagedByGear ClutchUndefinedByGear : List (List ℕ))
    (I : CorrInputs) : Except String CorrState := do
  let l0 ← appendCC InitialGears ("") 0 []
  let st0 : CorrState := ⟨InitialGears, ClutchDisengaged, ClutchDisengagedByGear,
    ClutchUndefinedByGear, List.replicate InitialGears.length 0, [], [], l0⟩
  let st1 ← corrPass I 1 st0
  corrPass I 2 st1

/-! ## Shared lemmas about the embedding combinators -/

/-- A successful getD with a non default result certifies the index is in
range. -/
theorem getD_some_lt (l : List (Option α)) (t : ℕ) (q : α)
    (h : l.getD t none = some q) : t < l.length := by
  by_contra hlt
  rw [List.getD_eq_default] at h
  · exact Option.noConfusion h
  · omega

/-- Pointwise description of mapIdx under getD, inside the range. -/
theorem mapIdx_getD (l : List α) (f : ℕ → α → α) (t : ℕ) (d : α)
    (ht : t < l.length) :
    (l.mapIdx f).getD t d = f t (l.getD t d) := by
  rw [List.getD_eq_getElem?_getD, List.getD_eq_getElem?_getD,
    List.getElem?_mapIdx]
  rw [List.getElem?_eq_getElem ht]
  simp

/-- Pointwise description of npMapAt under getD, inside the range. -/
theorem npMapAt_getD (l : List α) (ts : List ℕ) (f : ℕ → α → α) (t : ℕ) (d : α)
    (ht : t < l.length) :
    (npMapAt l ts f).getD t d =
      if t ∈ ts then f t (l.getD t d) else l.getD t d := by
  unfold npMapAt
  rw [mapIdx_getD _ _ t d ht]

/-- Membership in a whereIdx mask. -/
theorem mem_whereIdx (n : ℕ) (p : ℕ → Bool) (t : ℕ) :
    t ∈ whereIdx n p ↔ t < n ∧ p t = true := by
  simp [whereIdx, List.mem_filter, List.mem_range]

/-- Subtracting one changes every well formed PQ value. -/
theorem pq_sub_one_ne (q : PQ) (hd : 0 < q.den) : PQ.sub q (pqI 1) ≠ q := by
  intro h
  unfold PQ.sub pqI at h
  have h1 := congrArg PQ.num h
  simp at h1
  omega

/-- A successful withLog extends the log by exactly its own record. -/
theorem withLog_log (label : String) (c : ℕ)
    (f : CorrState → Except String CorrState) (st st1 : CorrState)
    (h : withLog label c f st = Except.ok st1) :
    st1.log = st.log ++ [(label, c)] := by
  unfold withLog at h
  simp only [bind, Except.bind, appendCC] at h
  repeat' split at h
  all_goals try (exact absurd h (by simp))
  cases h
  rename_i hq
  rw [ite_eq_iff] at hq
  rcases hq with ⟨-, hq⟩ | ⟨-, hq⟩
  · cases hq; rfl
  · exact absurd hq (by simp)

/-- A successful fold of logged steps appends exactly one record per step, in
step order. -/
theorem stepsLog (c : ℕ)
    (steps : List (String × (CorrState → Except String CorrState)))
    (st st1 : CorrState)
    (h : steps.foldlM (fun s p => withLog p.1 c p.2 s) st = Except.ok st1) :
    st1.log = st.log ++ steps.map (fun p => (p.1, c)) := by
  induction steps generalizing st with
  | nil =>
    simp only [List.foldlM_nil, pure, Except.pure, Except.ok.injEq] at h
    rw [h.symm]
    simp
  | cons p ps ih =>
    simp only [List.foldlM_cons, bind, Except.bind] at h
    split at h
    · exact absurd h (by simp)
    · rename_i v hv
      rw [ih v h, withLog_log p.1 c p.2 st v hv]
      simp

/-- A successful outer pass records the nine steps 4b, 4a, 4s, 4c, 4c, 4d,
4t, 4e, 4f with its pass number, whatever the inputs. -/
theorem corrPass_log (I : CorrInputs) (c : ℕ) (st st1 : CorrState)
    (h : corrPass I c st = Except.ok st1) :
    st1.log = st.log ++ [("4b", c), ("4a", c), ("4s", c), ("4c", c), ("4c", c),
      ("4d", c), ("4t", c), ("4e", c), ("4f", c)] := by
  have h2 := stepsLog c (passSteps I) st st1 h
  simpa [passSteps] using h2

/-- C1: for every input on which the correction engine returns, it has
performed exactly two outer passes of the fixed ordered step sequence 4b, 4a,
4s, 4c, 4c, 4d, 4t, 4e, 4f; in particular 4c runs exactly twice per pass
(four applications in total) and the counts are constants independent of the
input and of any convergence. -/
theorem C1_correction_engine_runs_two_fixed_passes (g0 : List PyF)
    (cd0 : List ℕ) (cdbg0 cubg0 : List (List ℕ)) (I : CorrInputs)
    (st : CorrState)
    (h : apply_corrections g0 cd0 cdbg0 cubg0 I = Except.ok st) :
    st.log = [("", 0),
      ("4b", 1), ("4a", 1), ("4s", 1), ("4c", 1), ("4c", 1), ("4d", 1),
      ("4t", 1), ("4e", 1), ("4f", 1),
      ("4b", 2), ("4a", 2), ("4s", 2), ("4c", 2), ("4c", 2), ("4d", 2),
      ("4t", 2), ("4e", 2), ("4f", 2)] := by
  unfold apply_corrections at h
  simp only [bind, Except.bind, appendCC] at h
  split at h
  · exact absurd h (by simp)
  · rename_i l0 hl0
    rw [ite_eq_iff] at hl0
    rcases hl0 with ⟨-, hl0⟩ | ⟨-, hl0⟩
    · cases hl0
      split at h
      · exact absurd h (by simp)
      · rename_i st1 h1
        rw [corrPass_log I 2 st1 st h, corrPass_log I 1 _ st1 h1]
        rfl
    · exact absurd hl0 (by simp)

/-- Gears of the C1 witness run: a two second standstill trace. -/
def c1g0 : List PyF := [pf 0, pf 0]

/-- Inputs of the C1 witness run. -/
def c1I : CorrInputs :=
  { PhaseValues := [1]
    PhaseStarts := [0]
    PhaseEnds := [1]
    NoOfGearsFinal := 1
    PossibleGears := [[pf 0], [pf 0]]
    InAcceleration := [0, 0]
    InConstantSpeed := [0, 0]
    InAccelerationAnyDuration := [0, 0]
    TraceTimesCount := 2
    RequiredVehicleSpeeds := [0, 0]
    SuppressGear0DuringDownshifts := false
    InitialRequiredEngineSpeeds := [[500], [500]]
    IdlingEngineSpeed := 700
    Phases := [1, 1]
    InStandStill := [1, 1]
    InDecelerationToStandstill := [0, 0]
    InDeceleration := [0, 0] }

/-- The state the C1 witness run returns. -/
def c1res : CorrState :=
  (apply_corrections c1g0 [0, 0] [[0], [0]] [[0], [0]] c1I).toOption.getD
    ⟨[], [], [], [], [], [], [], []⟩

/-- Witness for C1: a concrete run returns successfully and its log is the
fixed nineteen entry record of the two passes. -/
theorem C1_correction_engine_runs_two_fixed_passes_witness :
    apply_corrections c1g0 [0, 0] [[0], [0]] [[0], [0]] c1I =
      Except.ok c1res ∧
    c1res.log = [("", 0),
      ("4b", 1), ("4a", 1), ("4s", 1), ("4c", 1), ("4c", 1), ("4d", 1),
      ("4t", 1), ("4e", 1), ("4f", 1),
      ("4b", 2), ("4a", 2), ("4s", 2), ("4c", 2), ("4c", 2), ("4d", 2),
      ("4t", 2), ("4e", 2), ("4f", 2)] :=
  ⟨by rfl, C1_correction_engine_runs_two_fixed_passes c1g0 [0, 0] [[0], [0]]
    [[0], [0]] c1I c1res (by rfl)⟩

/-! ## Claim C10: applyCorrection4e never modifies the gears -/

/-- C10: whenever applyCorrection4e returns, the gear list it returns is the
input gear list; only the clutch flags may have changed.  This mirrors the
source, which reads InitialGears but assigns only to ClutchDisengaged. -/
theorem C10_correction4e_returns_gears_unchanged (InitialGears : List PyF)
    (PhaseStarts PhaseEnds PhaseValues ClutchDisengaged : List ℕ)
    (eng : List (List PQ)) (idle : PQ) (Phases : List ℕ)
    (p : List PyF × List ℕ)
    (h : applyCorrection4e InitialGears PhaseStarts PhaseEnds PhaseValues
      ClutchDisengaged eng idle Phases = Except.ok p) :
    p.1 = InitialGears := by
  unfold applyCorrection4e at h
  simp only [bind, Except.bind] at h
  split at h
  · exact absurd h (by simp)
  · cases h; rfl

/-- Witness for C10: a concrete deceleration second in gear 3; the call
succeeds and the gears come back unchanged. -/
theorem C10_correction4e_returns_gears_unchanged_witness :
    applyCorrection4e [pf 3] [0] [0] [4] [0] [[500, 500]] 700 [4] =
      Except.ok ([pf 3], [0]) ∧
    (([pf 3], [0]) : List PyF × List ℕ).1 = [pf 3] :=
  ⟨by rfl, C10_correction4e_returns_gears_unchanged [pf 3] [0] [0] [4] [0]
    [[500, 500]] 700 [4] ([pf 3], [0]) (by rfl)⟩

/-! ## Claim C2: no gear skipping during acceleration after the engine -/

/-- Speed trace of the C2 scenario: standstill, an acceleration from
standstill, constant speed, deceleration to standstill, standstill. -/
def c2v : List PQ :=
  [0, 0, 0, 0, 5, 10, 15, 20, 25, 30, 30, 30, 30, 20, 10, 0, 0, 0, 0]

/-- Phases of the C2 trace. -/
def c2ph : PhaseResult := identify_phases 19 c2v

/-- Engine speed possible gears of the C2 scenario (gear 1 around the launch
and at the deceleration end, gear 3 alone in the mid range, gear 2 alone at
second 13, neutral at standstill with the advanced engage window at seconds
2 and 3). -/
def c2eng : List (List PyF) :=
  [[pf 0, pf 0, pf 0, pf 0], [pf 0, pf 0, pf 0, pf 0],
   [pf 1, pf 0, pf 0, pf 0], [pf 1, pf 0, pf 0, pf 0],
   [pf 1, none, none, none], [pf 1, none, none, none],
   [none, none, pf 1, none], [none, none, pf 1, none],
   [none, none, pf 1, none], [none, none, pf 1, none],
   [none, none, pf 1, none], [none, none, pf 1, none],
   [none, none, pf 1, none], [none, pf 1, none, none],
   [pf 1, none, none, none], [pf 0, pf 0, pf 0, pf 0],
   [pf 0, pf 0, pf 0, pf 0], [pf 0, pf 0, pf 0, pf 0],
   [pf 0, pf 0, pf 0, pf 0]]

/-- Power admissibility of the C2 scenario: everything admissible. -/
def c2pow : List (List PyF) := (List.range 19).map fun _ => [pf 1, pf 1, pf 1, pf 1]

/-- Required engine speeds of the C2 scenario (high enough for no clutch
interaction). -/
def c2reqES : List (List PQ) := (List.range 19).map fun _ => [2000, 2000, 2000, 2000]

/-- Acceleration from standstill starts of the C2 trace. -/
def c2afsStarts : List ℕ :=
  (wheren (fun p => p == PHASE_ACCELERATION_FROM_STANDSTILL) c2ph.PhaseValues).map
    (eln c2ph.PhaseStarts)

/-- Initial gears and combined possible gears of the C2 scenario, from
determine_initial_gears. -/
def c2init : Except String (List PQ × List (List PyF)) :=
  determine_initial_gears c2ph.InStandStill 4 c2eng c2pow c2afsStarts
    c2ph.PhaseEnds c2ph.PhaseValues c2reqES 0

/-- The correction engine inputs of the C2 scenario. -/
def c2I : CorrInputs :=
  { PhaseValues := c2ph.PhaseValues
    PhaseStarts := c2ph.PhaseStarts
    PhaseEnds := c2ph.PhaseEnds
    NoOfGearsFinal := 4
    PossibleGears := (c2init.map Prod.snd).toOption.getD []
    InAcceleration := c2ph.InAcceleration
    InConstantSpeed := c2ph.InConstantSpeed
    InAccelerationAnyDuration := c2ph.InAccelerationAnyDuration
    TraceTimesCount := 19
    RequiredVehicleSpeeds := c2v
    SuppressGear0DuringDownshifts := false
    InitialRequiredEngineSpeeds := c2reqES
    IdlingEngineSpeed := 700
    Phases := c2ph.Phases
    InStandStill := c2ph.InStandStill
    InDecelerationToStandstill := c2ph.InDecelerationToStandstill
    InDeceleration := c2ph.InDeceleration }

/-- The initial gears of the C2 scenario as floats. -/
def c2g0 : List PyF := ((c2init.map Prod.fst).toOption.getD []).map some

/-- Zero clutch by gear matrices of the C2 scenario. -/
def c2zeros : List (List ℕ) := (List.range 19).map fun _ => [0, 0, 0, 0]

/-- Counterexample for C2: on the C2 scenario the full two pass correction
engine returns gears 1 at second 5 and 3 at second 6; both seconds lie in an
acceleration phase, second 6 is not constant speed (so the documented
transition exception does not apply), both gears are non neutral and they
differ by two steps.  The skip survives because the anti skip correction of
stage five only acts where the gear one step lower is possible at that
second, while at second 6 only gear 3 is possible. -/
theorem C2_counterexample_gear_skip_survives_corrections :
    (apply_corrections c2g0 (List.replicate 19 0) c2zeros c2zeros c2I).map
      (fun st => (elf st.gears 5, elf st.gears 6)) = Except.ok (pf 1, pf 3) ∧
    eln c2I.InAcceleration 5 = 1 ∧ eln c2I.InAcceleration 6 = 1 ∧
    eln c2I.InConstantSpeed 6 = 0 ∧
    pfGt (pf 1) (pf 0) = true ∧ pfGt (pf 3) (pf 0) = true ∧
    pfGt (pfSub (pf 3) (pf 1)) (pf 1) = true := by
  refine ⟨by rfl, by rfl, by rfl, by rfl, by decide, by decide, by decide⟩

/-- C2, amended: a gear sequence that the anti skip stages five and six of
correction 4a leave unchanged has no skipping upshift, under the provisos the
code itself applies.  During acceleration (previous gear positive, the gear
one step lower possible, no deferred 4b flag on the previous second) the
upshift is at most one step; at a transition from acceleration into constant
speed (previous gear above 1, lower gear possible) the upshift is at most one
step, or at most two steps when six consecutive seconds from the transition
on are constant speed. -/
theorem C2_no_gear_skip_at_stage_fixpoints (minPoss : List PQ)
    (Corr4a InAcceleration InConstantSpeed : List ℕ) (g : List PyF)
    (t : ℕ) (q : PQ)
    (h5 : corr4aStage5 minPoss Corr4a InAcceleration g = g)
    (h6 : corr4aStage6 minPoss InAcceleration InConstantSpeed g = g)
    (ht : 1 ≤ t) (hq : elf g t = some q) (hd : 0 < q.den) :
    (eln InAcceleration t = 1 →
      pfGt (elf g (t - 1)) (pf 0) = true →
      pfGe (pfSub (elf g t) (pf 1)) (some (elq minPoss t)) = true →
      eln Corr4a (t - 1) = 0 →
      pfGt (pfSub (elf g t) (elf g (t - 1))) (pf 1) = false) ∧
    (eln InAcceleration (t - 1) = 1 → eln InConstantSpeed t = 1 →
      pfGt (elf g (t - 1)) (pf 1) = true →
      pfGe (pfSub (elf g t) (pf 1)) (some (elq minPoss t)) = true →
      pfGt (pfSub (elf g t) (elf g (t - 1)))
        (pf (if constSpeed6 InConstantSpeed t then 2 else 1)) = false) := by
  have htn : t < g.length := getD_some_lt g t q hq
  have hne : t ≠ 0 := by omega
  constructor
  · intro hacc hprev hge hc
    by_contra hskip
    rw [Bool.not_eq_false] at hskip
    have hmem : t ∈ whereIdx g.length fun s =>
        pfGt (prevF g s) (pf 0) && (eln InAcceleration s == 1) &&
        pfGt (if s = 0 then pfSub (elf g 0) (elf g 0)
          else pfSub (elf g s) (elf g (s - 1))) (pf 1) &&
        pfGe (pfSub (elf g s) (pf 1)) (some (elq minPoss s)) &&
        ((if s = 0 then 0 else eln Corr4a (s - 1)) == 0) := by
      rw [mem_whereIdx]
      refine ⟨htn, ?_⟩
      simp only [prevF, if_neg hne, hprev, hacc, hskip, hge, hc]
      rfl
    have heq := congrArg (fun l => l.getD t (none : PyF)) h5
    unfold corr4aStage5 at heq
    simp only at heq
    rw [npMapAt_getD _ _ _ t none htn, if_pos hmem] at heq
    have hq2 : g.getD t none = some q := hq
    rw [hq2] at heq
    simp only [pfSub, pf, Option.some.injEq] at heq
    exact pq_sub_one_ne q hd heq
  · intro haccp hconst hprev hge
    by_contra hskip
    rw [Bool.not_eq_false] at hskip
    have hmem : t ∈ whereIdx g.length fun s =>
        pfGt (prevF g s) (pf 1) &&
        ((if s = 0 then 0 else eln InAcceleration (s - 1)) == 1) &&
        (eln InConstantSpeed s == 1) &&
        ((pfGt (if s = 0 then pfSub (elf g 0) (elf g 0)
            else pfSub (elf g s) (elf g (s - 1))) (pf 1) &&
          !(constSpeed6 InConstantSpeed s)) ||
         (pfGt (if s = 0 then pfSub (elf g 0) (elf g 0)
            else pfSub (elf g s) (elf g (s - 1))) (pf 2) &&
          constSpeed6 InConstantSpeed s)) &&
        pfGe (pfSub (elf g s) (pf 1)) (some (elq minPoss s)) := by
      rw [mem_whereIdx]
      refine ⟨htn, ?_⟩
      simp only [prevF, if_neg hne, hprev, haccp, hconst, hge]
      cases hc6 : constSpeed6 InConstantSpeed t
      · simp only [hc6] at hskip
        simp at hskip
        simp [hc6, hskip]
      · simp only [hc6] at hskip
        simp at hskip
        simp [hc6, hskip]
    have heq := congrArg (fun l => l.getD t (none : PyF)) h6
    unfold corr4aStage6 at heq
    simp only at heq
    rw [npMapAt_getD _ _ _ t none htn, if_pos hmem] at heq
    have hq2 : g.getD t none = some q := hq
    rw [hq2] at heq
    simp only [pfSub, pf, Option.some.injEq] at heq
    exact pq_sub_one_ne q hd heq

/-- Witness for the amended C2 theorem: a two second acceleration with gears
1 then 2, fixed by stages five and six; the instantiated conclusions hold. -/
theorem C2_no_gear_skip_at_stage_fixpoints_witness :
    (eln [1, 1] 1 = 1 →
      pfGt (elf [pf 1, pf 2] 0) (pf 0) = true →
      pfGe (pfSub (elf [pf 1, pf 2] 1) (pf 1)) (some (elq [1, 1] 1)) = true →
      eln [0, 0] 0 = 0 →
      pfGt (pfSub (elf [pf 1, pf 2] 1) (elf [pf 1, pf 2] 0)) (pf 1) = false) ∧
    (eln [1, 1] 0 = 1 → eln [0, 0] 1 = 1 →
      pfGt (elf [pf 1, pf 2] 0) (pf 1) = true →
      pfGe (pfSub (elf [pf 1, pf 2] 1) (pf 1)) (some (elq [1, 1] 1)) = true →
      pfGt (pfSub (elf [pf 1, pf 2] 1) (elf [pf 1, pf 2] 0))
        (pf (if constSpeed6 [0, 0] 1 then 2 else 1)) = false) :=
  C2_no_gear_skip_at_stage_fixpoints [1, 1] [0, 0] [1, 1] [0, 0]
    [pf 1, pf 2] 1 (pqI 2) (by rfl) (by rfl) (by decide) (by rfl) (by decide)

/-! ## Shared list and fold lemmas for the C3 and C6 developments -/

theorem getD_set_ne (l : List α) (i j : ℕ) (v d : α) (h : i ≠ j) :
    (l.set i v).getD j d = l.getD j d := by
  rw [List.getD_eq_getElem?_getD, List.getD_eq_getElem?_getD, List.getElem?_set_ne h]

theorem getD_mem (l : List α) (t : ℕ) (d : α) (h : t < l.length) :
    l.getD t d ∈ l := by
  rw [List.getD_eq_getElem?_getD, List.getElem?_eq_getElem h]
  exact List.getElem_mem h

theorem foldl_inv {β} (P : β → Prop) (f : β → α → β) (l : List α) (b : β)
    (h0 : P b) (hstep : ∀ b a, a ∈ l → P b → P (f b a)) : P (l.foldl f b) := by
  induction l generalizing b with
  | nil => exact h0
  | cons x xs ih =>
    exact ih (f b x) (hstep b x (by simp) h0)
      (fun b a ha hb => hstep b a (by simp [ha]) hb)

theorem foldlM_inv {β} (P : β → Prop) (f : β → α → Except String β)
    (l : List α) (b0 b1 : β) (h : l.foldlM f b0 = Except.ok b1) (h0 : P b0)
    (hstep : ∀ b a b2, a ∈ l → P b → f b a = Except.ok b2 → P b2) : P b1 := by
  induction l generalizing b0 with
  | nil =>
    simp only [List.foldlM_nil, pure, Except.pure, Except.ok.injEq] at h
    rw [← h]; exact h0
  | cons x xs ih =>
    simp only [List.foldlM_cons, bind, Except.bind] at h
    split at h
    · exact absurd h (by simp)
    · rename_i v hv
      exact ih v h (hstep b0 x v (by simp) h0 hv)
        (fun b a b2 ha hb hf => hstep b a b2 (by simp [ha]) hb hf)

theorem mapM_ok_getD {β} (f : α → Except String β) (l : List α) (r : List β)
    (h : l.mapM f = Except.ok r) :
    r.length = l.length ∧
      ∀ t, t < l.length → ∀ (d : α) (db : β),
        f (l.getD t d) = Except.ok (r.getD t db) := by
  induction l generalizing r with
  | nil =>
    simp only [List.mapM_nil, pure, Except.pure, Except.ok.injEq] at h
    rw [← h]
    exact ⟨rfl, by intro t ht; exact absurd ht (by simp)⟩
  | cons x xs ih =>
    rw [List.mapM_cons] at h
    simp only [bind, Except.bind, pure, Except.pure] at h
    split at h
    · exact absurd h (by simp)
    · rename_i v hv
      split at h
      · exact absurd h (by simp)
      · rename_i vs hvs
        cases h
        obtain ⟨hlen, hel⟩ := ih vs hvs
        refine ⟨by simp [hlen], ?_⟩
        intro t ht d db
        cases t with
        | zero => simpa using hv
        | succ t =>
          simp only [List.getD_cons_succ]
          exact hel t (by simpa using ht) d db

theorem mem_interIdx (a b : List ℕ) (t : ℕ) : t ∈ interIdx a b ↔ t ∈ a ∧ t ∈ b := by
  simp [interIdx, List.mem_filter]

theorem mem_wheren (p : ℕ → Bool) (l : List ℕ) (t : ℕ) :
    t ∈ wheren p l ↔ t < l.length ∧ p (l.getD t 0) = true := by
  simp [wheren, idxWhere, List.mem_filter, List.mem_range]

-- putColAt pointwise lemmas

theorem putColAt_length (M : List (List PyF)) (g : ℕ) (ts : List ℕ) (v : PyF) :
    (putColAt M g ts v).length = M.length := by
  simp [putColAt, List.length_mapIdx]

theorem putColAt_getD (M : List (List PyF)) (g : ℕ) (ts : List ℕ) (v : PyF)
    (t : ℕ) (ht : t < M.length) :
    (putColAt M g ts v).getD t [] =
      if t ∈ ts then (M.getD t []).set g v else M.getD t [] := by
  unfold putColAt
  rw [mapIdx_getD _ _ t [] ht]

theorem putColAt_rowlen (M : List (List PyF)) (g : ℕ) (ts : List ℕ) (v : PyF)
    (t : ℕ) :
    ((putColAt M g ts v).getD t []).length = (M.getD t []).length := by
  by_cases ht : t < M.length
  · rw [putColAt_getD _ _ _ _ _ ht]
    split
    · simp
    · rfl
  · have e1 : (putColAt M g ts v).getD t [] = [] :=
      List.getD_eq_default _ _ (by rw [putColAt_length]; omega)
    have e2 : M.getD t [] = [] := List.getD_eq_default _ _ (by omega)
    rw [e1, e2]

theorem elfm_putColAt_ne (M : List (List PyF)) (g : ℕ) (ts : List ℕ) (v : PyF)
    (t c : ℕ) (hc : c ≠ g) :
    elfm (putColAt M g ts v) t c = elfm M t c := by
  unfold elfm elf
  by_cases ht : t < M.length
  · rw [putColAt_getD _ _ _ _ _ ht]
    split
    · exact getD_set_ne _ _ _ _ _ (fun he => hc he.symm)
    · rfl
  · have e1 : (putColAt M g ts v).getD t [] = [] :=
      List.getD_eq_default _ _ (by rw [putColAt_length]; omega)
    have e2 : M.getD t [] = [] := List.getD_eq_default _ _ (by omega)
    rw [e1, e2]

theorem elfm_putColAt_notmem (M : List (List PyF)) (g : ℕ) (ts : List ℕ)
    (v : PyF) (t c : ℕ) (h : t ∉ ts) :
    elfm (putColAt M g ts v) t c = elfm M t c := by
  unfold elfm elf
  by_cases ht : t < M.length
  · rw [putColAt_getD _ _ _ _ _ ht, if_neg h]
  · have e1 : (putColAt M g ts v).getD t [] = [] :=
      List.getD_eq_default _ _ (by rw [putColAt_length]; omega)
    have e2 : M.getD t [] = [] := List.getD_eq_default _ _ (by omega)
    rw [e1, e2]

theorem elfm_putColAt_write (M : List (List PyF)) (g : ℕ) (ts : List ℕ)
    (v : PyF) (t : ℕ) (hts : t ∈ ts) (ht : t < M.length)
    (hg : g < (M.getD t []).length) :
    elfm (putColAt M g ts v) t g = v := by
  unfold elfm elf
  rw [putColAt_getD _ _ _ _ _ ht, if_pos hts]
  rw [List.getD_eq_getElem?_getD, List.getElem?_set_self (by simpa using hg)]
  rfl

-- entry of the standstill zero writing fold of M1

theorem m1_entry (G : ℕ) (ssIdx : List ℕ) (M0 : List (List PyF)) (t g : ℕ)
    (hg : g < G) (hts : t ∈ ssIdx) (ht : t < M0.length)
    (hrow : g < (M0.getD t []).length) :
    elfm ((List.range G).foldl (fun M c => putColAt M c ssIdx (pf 0)) M0)
      t g = pf 0 := by
  have hdec : List.range G =
      (List.range g ++ [g]) ++ (List.range (G - g - 1)).map ((g + 1) + .) := by
    rw [← List.range_succ, ← List.range_add]
    congr 1
    omega
  rw [hdec, List.foldl_append, List.foldl_append]
  simp only [List.foldl_cons, List.foldl_nil]
  have hlen : ((List.range g).foldl (fun M c => putColAt M c ssIdx (pf 0))
      M0).length = M0.length :=
    foldl_inv (fun M2 => M2.length = M0.length) _ (List.range g) M0 rfl
      (fun M2 b hb h2 => by show (putColAt M2 b ssIdx (pf 0)).length = M0.length; rw [putColAt_length]; exact h2)
  have hrl : (((List.range g).foldl (fun M c => putColAt M c ssIdx (pf 0))
      M0).getD t []).length = (M0.getD t []).length :=
    foldl_inv (fun M2 => (M2.getD t []).length = (M0.getD t []).length) _
      (List.range g) M0 rfl (fun M2 b hb h2 => by show ((putColAt M2 b ssIdx (pf 0)).getD t []).length = (M0.getD t []).length; rw [putColAt_rowlen]; exact h2)
  refine foldl_inv (fun M2 => elfm M2 t g = pf 0) _ _ _ ?_ ?_
  . exact elfm_putColAt_write _ g ssIdx (pf 0) t hts (by omega) (by omega)
  . intro M2 b hb hM2
    rw [elfm_putColAt_ne]
    . exact hM2
    . rcases List.mem_map.mp hb with ⟨i, hi, rfl⟩
      omega

theorem putColAt_getD_notmem (M : List (List PyF)) (g : ℕ) (ts : List ℕ)
    (v : PyF) (t : ℕ) (h : t ∉ ts) :
    (putColAt M g ts v).getD t [] = M.getD t [] := by
  by_cases ht : t < M.length
  . rw [putColAt_getD _ _ _ _ _ ht, if_neg h]
  . have e1 : (putColAt M g ts v).getD t [] = [] :=
      List.getD_eq_default _ _ (by rw [putColAt_length]; omega)
    have e2 : M.getD t [] = [] := List.getD_eq_default _ _ (by omega)
    rw [e1, e2]

theorem row_eq_replicate (row : List PyF) (G : ℕ) (v : PyF)
    (hlen : row.length = G) (he : ∀ g, g < G → row.getD g none = v) :
    row = List.replicate G v := by
  refine List.ext_getElem? ?_
  intro i
  by_cases hi : i < G
  . rw [List.getElem?_eq_getElem (by omega)]
    have h2 := he i hi
    rw [List.getD_eq_getElem?_getD, List.getElem?_eq_getElem (by omega)] at h2
    simp only [Option.getD_some] at h2
    rw [h2]
    simp [List.getElem?_replicate, hi]
  . rw [List.getElem?_eq_none (by omega), List.getElem?_replicate]
    rw [if_neg hi]

theorem m1fold_row (T G : ℕ) (ssIdx : List ℕ) (t : ℕ) (hT : t < T)
    (hts : t ∈ ssIdx) :
    (m1fold T G ssIdx).getD t [] = List.replicate G (pf 0) := by
  have hM0len : ((List.range T).map fun (x : ℕ) =>
      (List.replicate G (none : PyF))).length = T := by simp
  have hM0row : ((List.range T).map fun (x : ℕ) =>
      (List.replicate G (none : PyF))).getD t [] = List.replicate G none := by
    rw [List.getD_eq_getElem?_getD, List.getElem?_map]
    rw [List.getElem?_range (by omega)]
    rfl
  refine row_eq_replicate _ G (pf 0) ?_ ?_
  . unfold m1fold
    refine foldl_inv (fun (M2 : List (List PyF)) =>
      (M2.getD t []).length = G) _ _ _ ?_ ?_
    . show (((List.range T).map fun (x : ℕ) =>
        (List.replicate G (none : PyF))).getD t []).length = G
      rw [hM0row]; simp
    . intro M2 b hb h2
      show ((putColAt M2 b ssIdx (pf 0)).getD t []).length = G
      rw [putColAt_rowlen]; exact h2
  . intro g hg
    show elfm (m1fold T G ssIdx) t g = pf 0
    unfold m1fold
    exact m1_entry G ssIdx _ t g hg hts (by omega) (by rw [hM0row]; simpa using hg)

theorem m2fold_row (windows : List (List ℕ)) (M : List (List PyF)) (t : ℕ)
    (h : ∀ w ∈ windows, t ∉ w) : (m2fold windows M).getD t [] = M.getD t [] := by
  unfold m2fold
  refine foldl_inv (fun (M2 : List (List PyF)) => M2.getD t [] = M.getD t [])
    _ _ _ rfl ?_
  intro M2 b hb h2
  show (putColAt M2 0 b (pf 1)).getD t [] = M.getD t []
  rw [putColAt_getD_notmem _ _ _ _ _ (h b hb)]
  exact h2

theorem m3fold_row (T G : ℕ) (notSS : List ℕ) (MinDrives req : List (List PQ))
    (gm : ℕ) (m95 egr : PQ) (M : List (List PyF)) (t : ℕ) (hnot : t ∉ notSS) :
    (m3fold T G notSS MinDrives req gm m95 egr M).getD t [] = M.getD t [] := by
  unfold m3fold
  refine foldl_inv (fun (M2 : List (List PyF)) => M2.getD t [] = M.getD t [])
    _ _ _ rfl ?_
  intro M2 b hb h2
  show (putColAt M2 b (m3sel T notSS MinDrives req
    (if b < gm then m95 else egr) b) (pf 1)).getD t [] = M.getD t []
  rw [putColAt_getD_notmem]
  . exact h2
  . intro hc
    unfold m3sel at hc
    rw [mem_interIdx, mem_interIdx] at hc
    exact hnot hc.1.1

theorem c3_matrix_row (RequiredVehicleSpeeds NdvRatios : List PQ)
    (TraceTimesCount NoOfGearsFinal : ℕ) (PhaseValues InStandStill : List ℕ)
    (IdlingEngineSpeed : PQ) (PhaseStarts : List ℕ) (Accelerations : List PQ)
    (MinDrives : List (List PQ)) (GearAtMaxVehicleSpeedFinal : ℕ)
    (Max95EngineSpeedFinal EngineSpeedAtGearAtMaxRequiredSpeed : PQ)
    (t : ℕ) (hT : t < TraceTimesCount)
    (hsl : t < InStandStill.length) (hss : eln InStandStill t = 1)
    (hwin : ∀ w ∈ advanced_engage_windows PhaseStarts PhaseValues Accelerations,
      t ∉ w) :
    ((determine_possible_gears_matrix RequiredVehicleSpeeds NdvRatios
      TraceTimesCount NoOfGearsFinal PhaseValues InStandStill IdlingEngineSpeed
      PhaseStarts Accelerations MinDrives GearAtMaxVehicleSpeedFinal
      Max95EngineSpeedFinal EngineSpeedAtGearAtMaxRequiredSpeed).1).getD t [] =
      List.replicate NoOfGearsFinal (pf 0) := by
  have htss : t ∈ wheren (fun x => x == 1) InStandStill := by
    rw [mem_wheren]
    refine ⟨hsl, ?_⟩
    simp only [eln] at hss
    rw [hss]
    rfl
  have htnot : t ∉ wheren (fun x => x == 0) InStandStill := by
    rw [mem_wheren]
    intro hc
    simp only [eln] at hss
    rw [hss] at hc
    simp at hc
  unfold determine_possible_gears_matrix
  simp only []
  rw [putColAt_getD_notmem _ _ _ _ _
    (by intro hc; rw [mem_interIdx] at hc; exact htnot hc.1)]
  rw [m3fold_row _ _ _ _ _ _ _ _ _ _ htnot]
  rw [m2fold_row _ _ _ hwin]
  exact m1fold_row _ _ _ _ hT htss

theorem npPut_getD_notmem (l : List α) (ts : List ℕ) (v : α) (t : ℕ) (d : α)
    (h : t ∉ ts) : (npPut l ts v).getD t d = l.getD t d := by
  by_cases ht : t < l.length
  · unfold npPut
    rw [mapIdx_getD _ _ t d ht, if_neg h]
  · have e1 : (npPut l ts v).getD t d = d :=
      List.getD_eq_default _ _ (by simp [npPut, List.length_mapIdx]; omega)
    have e2 : l.getD t d = d := List.getD_eq_default _ _ (by omega)
    rw [e1, e2]

theorem foldl_pqMax_same (x : PQ) (k : ℕ) :
    (List.replicate k x).foldl pqMax x = x := by
  induction k with
  | zero => rfl
  | succ k ih =>
    rw [List.replicate_succ, List.foldl_cons]
    have hx : pqMax x x = x := by unfold pqMax; exact ite_self x
    rw [hx]
    exact ih

theorem rowMaxPQ_replicate_zero (G : ℕ) (hG : 0 < G) :
    rowMaxPQ (List.replicate G (0 : PQ)) = Except.ok 0 := by
  cases G with
  | zero => omega
  | succ k =>
    rw [List.replicate_succ]
    show Except.ok ((List.replicate k (0 : PQ)).foldl pqMax 0) = Except.ok 0
    rw [foldl_pqMax_same]

theorem combine_row_standstill (InStandStill : List ℕ) (G : ℕ)
    (eng pow : List (List PyF)) (t : ℕ) (hG : 0 < G)
    (hss : eln InStandStill t = 1)
    (hrow : eng.getD t [] = List.replicate G (pf 0)) :
    (combine_possible_gears InStandStill eng pow).getD t [] =
      List.replicate G (pf 0) := by
  have ht : t < eng.length := by
    by_contra hc
    rw [List.getD_eq_default _ _ (by omega)] at hrow
    have : (List.replicate G (pf 0)).length = 0 := by rw [← hrow]; rfl
    simp at this
    omega
  unfold combine_possible_gears
  simp only []
  rw [List.getD_eq_getElem?_getD, List.getElem?_map]
  have hcl : t < (eng.mapIdx fun t row =>
      if eln InStandStill t == 0 then
        row.mapIdx fun g x => pfMul x (elfm pow t g)
      else row).length := by
    simp [List.length_mapIdx]
    omega
  rw [List.getElem?_eq_getElem hcl]
  have hcombined : (eng.mapIdx fun t row =>
      if eln InStandStill t == 0 then
        row.mapIdx fun g x => pfMul x (elfm pow t g)
      else row).getD t [] = List.replicate G (pf 0) := by
    rw [mapIdx_getD _ _ t [] ht]
    rw [hss]
    simp only [hrow]
    rfl
  rw [List.getD_eq_getElem?_getD, List.getElem?_eq_getElem hcl] at hcombined
  simp only [Option.getD_some] at hcombined
  rw [hcombined]
  simp only [Option.map_some', Option.getD_some]
  refine List.ext_getElem? ?_
  intro i
  rw [List.getElem?_mapIdx]
  by_cases hi : i < G
  · simp [List.getElem?_replicate, hi, pfMul, pf, pqI, PQ.mul]
  · simp [List.getElem?_replicate, hi]

theorem c3_initial_gear (InStandStill : List ℕ) (G : ℕ)
    (eng pow : List (List PyF)) (afsStarts PhaseEnds PhaseValues : List ℕ)
    (reqES : List (List PQ)) (md : PQ) (res : List PQ × List (List PyF)) (t : ℕ)
    (hG : 0 < G) (hss : eln InStandStill t = 1)
    (hrow : eng.getD t [] = List.replicate G (pf 0))
    (hafs : t ∉ afsStarts)
    (hph : ∀ se ∈ afsStarts.zip
      ((wheren (fun p => p == PHASE_ACCELERATION_FROM_STANDSTILL)
        PhaseValues).map (eln PhaseEnds)), ¬(se.1 ≤ t ∧ t ≤ se.2))
    (h : determine_initial_gears InStandStill G eng pow afsStarts PhaseEnds
      PhaseValues reqES md = Except.ok res) :
    elq res.1 t = 0 := by
  have ht : t < eng.length := by
    by_contra hc
    rw [List.getD_eq_default _ _ (by omega)] at hrow
    have h0 : (List.replicate G (pf 0)).length = 0 := by rw [← hrow]; rfl
    simp at h0
    omega
  have hPG := combine_row_standstill InStandStill G eng pow t hG hss hrow
  have hPGlen : (combine_possible_gears InStandStill eng pow).length =
      eng.length := by
    simp [combine_possible_gears, List.length_mapIdx]
  have hKrow : ((combine_possible_gears InStandStill eng pow).map fun row =>
      row.map pqOrNeg2).getD t [] = List.replicate G (0 : PQ) := by
    rw [List.getD_eq_getElem?_getD, List.getElem?_map,
      List.getElem?_eq_getElem (by omega)]
    have hPGe : (combine_possible_gears InStandStill eng pow)[t] =
        List.replicate G (pf 0) := by
      rw [List.getD_eq_getElem?_getD,
        List.getElem?_eq_getElem (by omega : t < (combine_possible_gears
          InStandStill eng pow).length)] at hPG
      simpa using hPG
    rw [hPGe]
    simp only [Option.map_some', Option.getD_some, List.map_replicate]
    rfl
  unfold determine_initial_gears at h
  simp only [bind, Except.bind] at h
  split at h
  · exact absurd h (by simp)
  · rename_i gearsMax hgm
    split at h
    · exact absurd h (by simp)
    · rename_i gearsF hgf
      cases h
      show elq gearsF t = 0
      obtain ⟨hglen, hel⟩ := mapM_ok_getD _ _ _ hgm
      have hmax := hel t (by
        simp only [List.length_map]
        omega) [] (0 : PQ)
      rw [hKrow, rowMaxPQ_replicate_zero G hG] at hmax
      have hg0 : gearsMax.getD t 0 = 0 := by
        injection hmax with hmax2
        exact hmax2.symm
      -- the suppression fold keeps the zero
      have hg2 : elq (((afsStarts.zip
          ((wheren (fun p => p == PHASE_ACCELERATION_FROM_STANDSTILL)
            PhaseValues).map (eln PhaseEnds))).map fun se =>
            (List.range (se.2 + 1)).filter fun s => se.1 ≤ s).foldl
          suppressGear2Phase (npPut gearsMax afsStarts 1)) t = 0 := by
        refine foldl_inv (fun (gs : List PQ) => elq gs t = 0) _ _ _ ?_ ?_
        · show elq (npPut gearsMax afsStarts 1) t = 0
          unfold elq
          rw [npPut_getD_notmem _ _ _ _ _ hafs]
          exact hg0
        · intro gs phase hphm hP
          show elq (suppressGear2Phase gs phase) t = 0
          unfold suppressGear2Phase
          simp only []
          split
          · exact hP
          · rename_i k tail hw2
            have hk : k ∈ whereIdx (phase.map (elq gs)).length fun j =>
                PQ.eqv (elq (phase.map (elq gs)) j) 2 := by
              rw [hw2]
              exact List.mem_cons_self k tail
            rw [mem_whereIdx] at hk
            have hklen : k < phase.length := by
              have := hk.1
              simpa [List.length_map] using this
            refine foldl_inv (fun (gs2 : List PQ) => elq gs2 t = 0) _ _ _ hP ?_
            intro gs2 rel hrel hP2
            show elq (gs2.set (eln phase rel) 1) t = 0
            have hrel2 : rel < phase.length := by
              rw [List.mem_range] at hrel
              by_cases hk0 : k = 0
              · rw [if_pos hk0] at hrel
                simp only [List.length_map] at hrel
                omega
              · rw [if_neg hk0] at hrel
                omega
            have hpmem : phase.getD rel 0 ∈ phase := getD_mem _ _ _ hrel2
            rcases List.mem_map.mp hphm with ⟨se, hse, rfl⟩
            have hbound := List.mem_filter.mp hpmem
            have hp1 : se.1 ≤ ((List.range (se.2 + 1)).filter
                (fun s => decide (se.1 ≤ s))).getD rel 0 := by
              have := hbound.2
              simpa using this
            have hp2 : ((List.range (se.2 + 1)).filter
                (fun s => decide (se.1 ≤ s))).getD rel 0 ≤ se.2 := by
              have := List.mem_range.mp hbound.1
              omega
            have hne : ((List.range (se.2 + 1)).filter
                (fun s => decide (se.1 ≤ s))).getD rel 0 ≠ t := by
              intro hc
              exact hph se hse ⟨by omega, by omega⟩
            unfold elq
            simp only [eln]
            rw [getD_set_ne _ _ _ _ _ hne]
            exact hP2
      -- the FromGear1 hold keeps the zero
      unfold fromGear1Loop at hgf
      simp only [bind, Except.bind] at hgf
      split at hgf
      · exact absurd hgf (by simp)
      · rename_i st2 hst
        simp only [pure, Except.pure, Except.ok.injEq] at hgf
        rw [← hgf]
        refine foldlM_inv (fun (st : List PQ × Option Bool) => elq st.1 t = 0)
          _ _ _ _ hst hg2 ?_
        intro b a b2 ha hPb hf
        simp only [pure, Except.pure] at hf
        split at hf
        · cases hf
          exact hPb
        · split at hf
          · split at hf
            · exact absurd hf (by simp)
            · split at hf
              · cases hf
                rename_i hne1 heqv2 xopt hq1 hq2 xf
                show elq (b.1.set a 1) t = 0
                have hat : a ≠ t := by
                  intro hc
                  rw [hc] at heqv2
                  rw [hPb] at heqv2
                  exact absurd heqv2 (by decide)
                unfold elq
                rw [getD_set_ne _ _ _ _ _ (fun hc => hat hc)]
                exact hPb
              · cases hf
                exact hPb
          · cases hf
            exact hPb

/-- Claim C3 (amended): at every standstill second that lies outside the
advanced first gear engage windows and outside the acceleration from
standstill phase spans, the possible gears matrix row holds the neutral
value 0 at every gear, and determine_initial_gears assigns the neutral gear
0 there. -/
theorem C3_standstill_neutral_outside_engage_windows
    (RequiredVehicleSpeeds NdvRatios : List PQ)
    (TraceTimesCount NoOfGearsFinal : ℕ)
    (PhaseValues InStandStill : List ℕ) (IdlingEngineSpeed : PQ)
    (PhaseStarts : List ℕ) (Accelerations : List PQ)
    (MinDrives : List (List PQ)) (GearAtMaxVehicleSpeedFinal : ℕ)
    (Max95EngineSpeedFinal EngineSpeedAtGearAtMaxRequiredSpeed : PQ)
    (eng pow : List (List PyF)) (afsStarts PhaseEnds : List ℕ)
    (reqES : List (List PQ)) (md : PQ) (res : List PQ × List (List PyF))
    (t : ℕ)
    (hG : 0 < NoOfGearsFinal) (hT : t < TraceTimesCount)
    (hsl : t < InStandStill.length) (hss : eln InStandStill t = 1)
    (hwin : ∀ w ∈ advanced_engage_windows PhaseStarts PhaseValues
      Accelerations, t ∉ w)
    (heng : determine_possible_gears_matrix RequiredVehicleSpeeds NdvRatios
      TraceTimesCount NoOfGearsFinal PhaseValues InStandStill IdlingEngineSpeed
      PhaseStarts Accelerations MinDrives GearAtMaxVehicleSpeedFinal
      Max95EngineSpeedFinal EngineSpeedAtGearAtMaxRequiredSpeed =
      (eng, afsStarts))
    (hafs : t ∉ afsStarts)
    (hph : ∀ se ∈ afsStarts.zip
      ((wheren (fun p => p == PHASE_ACCELERATION_FROM_STANDSTILL)
        PhaseValues).map (eln PhaseEnds)), ¬(se.1 ≤ t ∧ t ≤ se.2))
    (h : determine_initial_gears InStandStill NoOfGearsFinal eng pow afsStarts
      PhaseEnds PhaseValues reqES md = Except.ok res) :
    eng.getD t [] = List.replicate NoOfGearsFinal (pf 0) ∧ elq res.1 t = 0 := by
  have hrow : eng.getD t [] = List.replicate NoOfGearsFinal (pf 0) := by
    have hm := c3_matrix_row RequiredVehicleSpeeds NdvRatios TraceTimesCount
      NoOfGearsFinal PhaseValues InStandStill IdlingEngineSpeed PhaseStarts
      Accelerations MinDrives GearAtMaxVehicleSpeedFinal Max95EngineSpeedFinal
      EngineSpeedAtGearAtMaxRequiredSpeed t hT hsl hss hwin
    rw [heng] at hm
    exact hm
  exact ⟨hrow, c3_initial_gear InStandStill NoOfGearsFinal eng pow afsStarts
    PhaseEnds PhaseValues reqES md res t hG hss hrow hafs hph h⟩

def c3afsT : List ℕ :=
  (determine_possible_gears_matrix c3v [100, 60, 40] 12 3 c3ph.PhaseValues
    c3ph.InStandStill 900 c3ph.PhaseStarts (get_accelerations c3v) c3md 2
    5000 5500).2

def c3powT : List (List PyF) := (List.range 12).map fun _ => [pf 1, pf 1, pf 1]

def c3resT : List PQ × List (List PyF) :=
  (determine_initial_gears c3ph.InStandStill 3 c3M c3powT c3afsT
    c3ph.PhaseEnds c3ph.PhaseValues ((List.range 12).map fun _ => [0, 0, 0])
    0).toOption.getD ([], [])

/-- Witness for the amended C3 theorem: second 1 of the C3 trace is a
standstill second outside the engage window, its matrix row is all zeros and
the initial gear there is 0. -/
theorem C3_standstill_neutral_outside_engage_windows_witness :
    c3M.getD 1 [] = List.replicate 3 (pf 0) ∧ elq c3resT.1 1 = 0 :=
  C3_standstill_neutral_outside_engage_windows c3v [100, 60, 40] 12 3
    c3ph.PhaseValues c3ph.InStandStill 900 c3ph.PhaseStarts
    (get_accelerations c3v) c3md 2 5000 5500 c3M c3powT c3afsT c3ph.PhaseEnds
    ((List.range 12).map fun _ => [0, 0, 0]) 0 c3resT 1
    (by decide) (by decide) (by decide) (by rfl) (by decide) (by rfl)
    (by decide) (by decide) (by rfl)

/-! ## Claim C6: argmax fallback and the combined possible gears matrix -/

theorem leb_refl (a : PQ) : PQ.leb a a = true := by
  simp [PQ.leb]

theorem leb_of_ltb (a b : PQ) (h : PQ.ltb a b = true) : PQ.leb a b = true := by
  unfold PQ.ltb at h
  unfold PQ.leb
  simp only [decide_eq_true_eq] at h ⊢
  omega

theorem leb_of_not_ltb (a b : PQ) (h : PQ.ltb a b = false) :
    PQ.leb b a = true := by
  unfold PQ.ltb at h
  unfold PQ.leb
  simp only [decide_eq_false_iff_not] at h
  simp only [decide_eq_true_eq]
  omega

theorem leb_trans_pos (a b c : PQ) (hb : 0 < b.den)
    (h1 : PQ.leb a b = true) (h2 : PQ.leb b c = true) :
    PQ.leb a c = true := by
  unfold PQ.leb at h1 h2 ⊢
  simp only [decide_eq_true_eq] at h1 h2 ⊢
  have hbz : (0 : ℤ) < (b.den : ℤ) := by exact_mod_cast hb
  nlinarith [mul_le_mul_of_nonneg_right h1 (Int.ofNat_nonneg c.den),
    mul_le_mul_of_nonneg_right h2 (Int.ofNat_nonneg a.den)]

-- argmaxFirst: the first maximum dominates every element

theorem amf_fold (ps : List (ℕ × PQ)) :
    ∀ b : ℕ × PQ, 0 < b.2.den → (∀ p ∈ ps, 0 < p.2.den) →
    (ps.foldl amfStep b = b ∨ ps.foldl amfStep b ∈ ps) ∧
    PQ.leb b.2 (ps.foldl amfStep b).2 = true ∧
    ∀ p ∈ ps, PQ.leb p.2 (ps.foldl amfStep b).2 = true := by
  induction ps with
  | nil =>
    intro b hb _
    exact ⟨Or.inl rfl, leb_refl b.2, by intro p hp; exact absurd hp (by simp)⟩
  | cons q qs ih =>
    intro b hb hps
    have hq : 0 < q.2.den := hps q (by simp)
    have hqs : ∀ p ∈ qs, 0 < p.2.den := fun p hp => hps p (by simp [hp])
    simp only [List.foldl_cons]
    by_cases hlt : PQ.ltb b.2 q.2 = true
    · have hstep : amfStep b q = q := by unfold amfStep; rw [if_pos hlt]
      rw [hstep]
      obtain ⟨hmem, hle, hall⟩ := ih q hq hqs
      have hrden : 0 < (qs.foldl amfStep q).2.den := by
        rcases hmem with hm | hm
        · rw [hm]; exact hq
        · exact hqs _ hm
      refine ⟨?_, ?_, ?_⟩
      · rcases hmem with hm | hm
        · exact Or.inr (by rw [hm]; simp)
        · exact Or.inr (by simp [hm])
      · exact leb_trans_pos b.2 q.2 _ hq (leb_of_ltb _ _ hlt) hle
      · intro p hp
        rcases List.mem_cons.mp hp with hm | hm
        · rw [hm]; exact hle
        · exact hall p hm
    · have hf : PQ.ltb b.2 q.2 = false := by
        revert hlt; cases PQ.ltb b.2 q.2 <;> simp
      have hstep : amfStep b q = b := by
        unfold amfStep
        rw [hf]
        rfl
      rw [hstep]
      obtain ⟨hmem, hle, hall⟩ := ih b hb hqs
      refine ⟨?_, hle, ?_⟩
      · rcases hmem with hm | hm
        · exact Or.inl hm
        · exact Or.inr (by simp [hm])
      · intro p hp
        rcases List.mem_cons.mp hp with hm | hm
        · rw [hm]
          have hqb : PQ.leb q.2 b.2 = true := leb_of_not_ltb b.2 q.2 hf
          exact leb_trans_pos q.2 b.2 _ hb hqb hle
        · exact hall p hm

theorem argmax_spec (l : List PQ) (hl : 0 < l.length)
    (hden : ∀ y ∈ l, 0 < y.den) :
    argmaxFirst l < l.length ∧
    ∀ i, i < l.length →
      PQ.leb (l.getD i 0) (l.getD (argmaxFirst l) 0) = true := by
  have hb : 0 < (l.headD 0).den := by
    have h0 : l.headD 0 = l.getD 0 0 := by cases l <;> rfl
    rw [h0]
    exact hden _ (getD_mem l 0 0 hl)
  have hps : ∀ p ∈ l.enum, 0 < p.2.den := by
    intro p hp
    obtain ⟨i, x⟩ := p
    have hx : l[i]? = some x := List.mk_mem_enum_iff_getElem?.mp hp
    exact hden x (List.getElem?_mem hx)
  obtain ⟨hmem, hle, hall⟩ := amf_fold l.enum (0, l.headD 0) hb hps
  have hr2 : l.getD (l.enum.foldl amfStep (0, l.headD 0)).1 0 =
      (l.enum.foldl amfStep (0, l.headD 0)).2 ∧
      (l.enum.foldl amfStep (0, l.headD 0)).1 < l.length := by
    rcases hmem with hm | hm
    · rw [hm]
      exact ⟨by cases l <;> rfl, hl⟩
    · have hx : l[(l.enum.foldl amfStep (0, l.headD 0)).1]? =
          some (l.enum.foldl amfStep (0, l.headD 0)).2 :=
        List.mk_mem_enum_iff_getElem?.mp hm
      have hlen : (l.enum.foldl amfStep (0, l.headD 0)).1 < l.length := by
        by_contra hc
        rw [List.getElem?_eq_none (by omega)] at hx
        exact Option.noConfusion hx
      refine ⟨?_, hlen⟩
      rw [List.getD_eq_getElem?_getD, hx]
      rfl
  constructor
  · show (l.enum.foldl amfStep (0, l.headD 0)).1 < l.length
    exact hr2.2
  · intro i hi
    show PQ.leb (l.getD i 0) (l.getD (l.enum.foldl amfStep (0, l.headD 0)).1 0) = true
    rw [hr2.1]
    have hmem2 : (i, l.getD i 0) ∈ l.enum := by
      refine List.mk_mem_enum_iff_getElem?.mpr ?_
      rw [List.getD_eq_getElem?_getD, List.getElem?_eq_getElem hi]
      rfl
    exact hall _ hmem2

theorem pfMul_some (a b : PyF) (x : PQ) (h : pfMul a b = some x) :
    ∃ p q, a = some p ∧ b = some q ∧ x = PQ.mul p q := by
  cases a with
  | none => exact absurd h (by simp [pfMul])
  | some p =>
    cases b with
    | none => exact absurd h (by simp [pfMul])
    | some q =>
      refine ⟨p, q, rfl, rfl, ?_⟩
      simp only [pfMul, Option.some.injEq] at h
      exact h.symm

theorem unravel_ok (T G : ℕ) (M M2 : List (List PyF)) (ind : ℕ)
    (h : unravelPutOne T G M ind = Except.ok M2) :
    M2 = M.mapIdx fun s row =>
      if s = ind % T then row.set (ind / T) (pf 1) else row := by
  unfold unravelPutOne at h
  split at h
  · cases h; rfl
  · exact absurd h (by simp)

theorem combined_entry_ne_none (InStandStill : List ℕ)
    (E P : List (List PyF)) (t g : ℕ) (e : PQ) (hns : eln InStandStill t = 0)
    (hE : elfm E t g = some e) (hP : elfm P t g = pf 1) :
    elfm (combine_possible_gears InStandStill E P) t g ≠ none := by
  have htE : t < E.length := by
    by_contra hc
    unfold elfm elf at hE
    rw [List.getD_eq_default E ([] : List PyF) (by omega)] at hE
    exact Option.noConfusion hE
  have hgE : g < (E.getD t []).length := by
    by_contra hc
    unfold elfm elf at hE
    rw [List.getD_eq_getElem?_getD (E.getD t []) g none] at hE
    rw [List.getElem?_eq_none (by omega)] at hE
    exact Option.noConfusion hE
  have hcl : t < (E.mapIdx fun s row =>
      if eln InStandStill s == 0 then
        row.mapIdx fun g2 x => pfMul x (elfm P s g2)
      else row).length := by
    simp only [List.length_mapIdx]
    omega
  unfold combine_possible_gears
  simp only []
  have hmap : ((E.mapIdx fun s row =>
      if eln InStandStill s == 0 then
        row.mapIdx fun g2 x => pfMul x (elfm P s g2)
      else row).map fun row =>
        row.mapIdx fun g2 x => pfMul (pf ((g2 : ℤ) + 1)) x).getD t [] =
      ((E.getD t []).mapIdx fun g2 x => pfMul x (elfm P t g2)).mapIdx
        fun g2 x => pfMul (pf ((g2 : ℤ) + 1)) x := by
    rw [List.getD_eq_getElem?_getD, List.getElem?_map,
      List.getElem?_eq_getElem hcl]
    simp only [Option.map_some', Option.getD_some]
    congr 1
    have h2 := mapIdx_getD E (fun s row =>
      if eln InStandStill s == 0 then
        row.mapIdx fun g2 x => pfMul x (elfm P s g2)
      else row) t [] htE
    rw [List.getD_eq_getElem?_getD, List.getElem?_eq_getElem hcl] at h2
    simp only [Option.getD_some] at h2
    rw [h2, hns]
    rfl
  show (((E.mapIdx fun s row =>
      if eln InStandStill s == 0 then
        row.mapIdx fun g2 x => pfMul x (elfm P s g2)
      else row).map fun row =>
        row.mapIdx fun g2 x => pfMul (pf ((g2 : ℤ) + 1)) x).getD t []).getD
      g none ≠ none
  rw [hmap]
  rw [List.getD_eq_getElem?_getD, List.getElem?_mapIdx, List.getElem?_mapIdx]
  have hEg : (E.getD t [])[g]? = some (some e) := by
    unfold elfm elf at hE
    rw [List.getD_eq_getElem?_getD, List.getElem?_eq_getElem hgE] at hE
    rw [List.getElem?_eq_getElem hgE]
    simp only [Option.getD_some] at hE
    rw [hE]
  rw [hEg]
  simp only [Option.map_some', Option.getD_some]
  rw [hP]
  simp [pfMul, pf]

theorem argmax_rev_pick (row : List PQ) (G : ℕ) (hlen : row.length = G)
    (hden : ∀ y ∈ row, 0 < y.den) (g0 : ℕ) (hg0 : g0 < G) :
    G - argmaxFirst row.reverse - 1 < G ∧
    PQ.leb (row.getD g0 0)
      (row.getD (G - argmaxFirst row.reverse - 1) 0) = true := by
  have hRlen : row.reverse.length = G := by simp [hlen]
  have hRden : ∀ y ∈ row.reverse, 0 < y.den := by
    intro y hy
    exact hden y (List.mem_reverse.mp hy)
  obtain ⟨ham, hall⟩ := argmax_spec row.reverse (by omega) hRden
  have hamG : argmaxFirst row.reverse < G := by
    rw [hRlen] at ham
    exact ham
  have hrev : ∀ i, i < G → row.reverse.getD i 0 = row.getD (G - 1 - i) 0 := by
    intro i hi
    rw [List.getD_eq_getElem?_getD, List.getD_eq_getElem?_getD,
      List.getElem?_reverse (by omega : i < row.length)]
    rw [hlen]
  refine ⟨by omega, ?_⟩
  have h1 := hall (G - 1 - g0) (by omega)
  rw [hrev (G - 1 - g0) (by omega), hrev (argmaxFirst row.reverse) hamG] at h1
  have e0 : G - 1 - (G - 1 - g0) = g0 := by omega
  have e1 : G - 1 - argmaxFirst row.reverse =
      G - argmaxFirst row.reverse - 1 := by omega
  rw [e0, e1] at h1
  exact h1

theorem fallback_fold_writes (T G : ℕ) (I : List ℕ) (P1 P : List (List PyF))
    (t : ℕ) (hT : t < T)
    (hlen : P1.length = T) (hrow : (P1.getD t []).length = G)
    (h : (List.range T).foldlM (fun Pm s =>
      unravelPutOne T G Pm (eln I s * T + s)) P1 = Except.ok P)
    (hgm : eln I t < G) :
    elfm P t (eln I t) = pf 1 := by
  have hdec1 : List.range T =
      List.range (t + 1) ++ (List.range (T - t - 1)).map ((t + 1) + ·) := by
    rw [← List.range_add]
    congr 1
    omega
  rw [hdec1, List.foldlM_append] at h
  simp only [bind, Except.bind] at h
  split at h
  · exact absurd h (by simp)
  rename_i Q1 hQ1
  rw [List.range_succ, List.foldlM_append] at hQ1
  simp only [bind, Except.bind] at hQ1
  split at hQ1
  · exact absurd hQ1 (by simp)
  rename_i Q0 hQ0
  simp only [List.foldlM_cons, List.foldlM_nil, bind, Except.bind, pure,
    Except.pure] at hQ1
  split at hQ1
  · exact absurd hQ1 (by simp)
  rename_i Q2 hQ2
  cases hQ1
  have hinv0 : Q0.length = T ∧ (Q0.getD t []).length = G := by
    refine foldlM_inv (fun M => M.length = T ∧ (M.getD t []).length = G)
      _ _ _ _ hQ0 ⟨hlen, hrow⟩ ?_
    intro b a b2 ha hb hf
    have h2 := unravel_ok T G b b2 _ hf
    constructor
    · rw [h2]
      simp only [List.length_mapIdx]
      exact hb.1
    · rw [h2, mapIdx_getD b _ t [] (by rw [hb.1]; omega)]
      split
      · simp only [List.length_set]
        exact hb.2
      · exact hb.2
  have hmod : (eln I t * T + t) % T = t := by
    have hc : eln I t * T + t = T * eln I t + t := by ring
    rw [hc, Nat.mul_add_mod]
    exact Nat.mod_eq_of_lt hT
  have hdiv : (eln I t * T + t) / T = eln I t := by
    have hc : eln I t * T + t = T * eln I t + t := by ring
    rw [hc, Nat.mul_add_div (by omega), Nat.div_eq_of_lt hT, Nat.add_zero]
  have hw : elfm Q1 t (eln I t) = pf 1 := by
    have h2 := unravel_ok T G Q0 Q1 _ hQ2
    rw [h2]
    unfold elfm elf
    rw [mapIdx_getD Q0 _ t [] (by rw [hinv0.1]; omega)]
    rw [hmod, hdiv, if_pos rfl]
    rw [List.getD_eq_getElem?_getD,
      List.getElem?_set_self (by rw [hinv0.2]; omega)]
    rfl
  have hl2 : Q1.length = T ∧ (Q1.getD t []).length = G := by
    have h2 := unravel_ok T G Q0 Q1 _ hQ2
    constructor
    · rw [h2]
      simp only [List.length_mapIdx]
      exact hinv0.1
    · rw [h2, mapIdx_getD Q0 _ t [] (by rw [hinv0.1]; omega)]
      split
      · simp only [List.length_set]
        exact hinv0.2
      · exact hinv0.2
  have hfin := foldlM_inv (fun M => M.length = T ∧ (M.getD t []).length = G ∧
      elfm M t (eln I t) = pf 1) _ _ _ _ h ⟨hl2.1, hl2.2, hw⟩ ?_
  · exact hfin.2.2
  · intro b a b2 ha hb hf
    have h2 := unravel_ok T G b b2 _ hf
    refine ⟨?_, ?_, ?_⟩
    · rw [h2]
      simp only [List.length_mapIdx]
      exact hb.1
    · rw [h2, mapIdx_getD b _ t [] (by rw [hb.1]; omega)]
      split
      · simp only [List.length_set]
        exact hb.2.1
      · exact hb.2.1
    · rw [h2]
      unfold elfm elf
      rw [mapIdx_getD b _ t [] (by rw [hb.1]; omega)]
      split
      · by_cases hix : (eln I a * T + a) / T = eln I t
        · rw [hix]
          rw [List.getD_eq_getElem?_getD,
            List.getElem?_set_self (by rw [hb.2.1]; omega)]
          rfl
        · rw [getD_set_ne _ _ _ _ _ hix]
          exact hb.2.2
      · exact hb.2.2

/-- Claim C6 (amended): if at second t some gear has its available power
times engine speed admissibility product defined and strictly above the -1
NaN sentinel (and the sentinel row entries at t have positive denominators,
as machine floats always do), then after the power admissibility fallback at
least one gear is flagged possible at t in the combined possible gears
matrix at a non standstill second: some entry is not NaN. -/
theorem C6_power_fallback_flags_possible_gear
    (AvailablePowers : List (List PyF)) (requiredPowersF : List PyF)
    (TraceTimesCount NoOfGearsFinal : ℕ)
    (PossibleGearsByEngineSpeed : List (List PyF)) (InStandStill : List ℕ)
    (P : List (List PyF)) (t : ℕ)
    (hT : t < TraceTimesCount)
    (hns : eln InStandStill t = 0)
    (hden : ∀ g, g < NoOfGearsFinal →
      0 < (kEntry AvailablePowers PossibleGearsByEngineSpeed t g).den)
    (hpos : ∃ g x, g < NoOfGearsFinal ∧
      pfMul (elfm AvailablePowers t g) (elfm PossibleGearsByEngineSpeed t g) =
        some x ∧ PQ.ltb (pqI (-1)) x = true)
    (h : determine_possible_gears_based_available_powers AvailablePowers
      requiredPowersF TraceTimesCount NoOfGearsFinal
      PossibleGearsByEngineSpeed = Except.ok P) :
    ∃ g, g < NoOfGearsFinal ∧
      elfm (combine_possible_gears InStandStill PossibleGearsByEngineSpeed P)
        t g ≠ none := by
  obtain ⟨g0, x, hg0, hx, hxlt⟩ := hpos
  have hG : 0 < NoOfGearsFinal := by omega
  have hKd : ∀ y ∈ (List.range NoOfGearsFinal).map fun g =>
      kEntry AvailablePowers PossibleGearsByEngineSpeed t g, 0 < y.den := by
    intro y hy
    rcases List.mem_map.mp hy with ⟨g, hgm, rfl⟩
    exact hden g (List.mem_range.mp hgm)
  have hKg : ∀ g, g < NoOfGearsFinal →
      ((List.range NoOfGearsFinal).map fun g =>
        kEntry AvailablePowers PossibleGearsByEngineSpeed t g).getD g 0 =
      kEntry AvailablePowers PossibleGearsByEngineSpeed t g := by
    intro g hg
    rw [List.getD_eq_getElem?_getD, List.getElem?_map, List.getElem?_range hg]
    rfl
  obtain ⟨hgmlt, hle⟩ := argmax_rev_pick ((List.range NoOfGearsFinal).map
    fun g => kEntry AvailablePowers PossibleGearsByEngineSpeed t g)
    NoOfGearsFinal (by simp) hKd g0 hg0
  set gm := NoOfGearsFinal - argmaxFirst ((List.range NoOfGearsFinal).map
    fun g => kEntry AvailablePowers PossibleGearsByEngineSpeed t g).reverse -
    1 with hgmdef
  rw [hKg g0 hg0, hKg gm hgmlt] at hle
  have hxval : kEntry AvailablePowers PossibleGearsByEngineSpeed t g0 = x := by
    unfold kEntry
    rw [hx]
  rw [hxval] at hle
  cases hm : pfMul (elfm AvailablePowers t gm)
      (elfm PossibleGearsByEngineSpeed t gm) with
  | none =>
    exfalso
    have hKgm : kEntry AvailablePowers PossibleGearsByEngineSpeed t gm =
        pqI (-1) := by
      unfold kEntry
      rw [hm]
    rw [hKgm] at hle
    unfold PQ.leb at hle
    unfold PQ.ltb at hxlt
    simp only [pqI, decide_eq_true_eq] at hle hxlt
    omega
  | some e =>
    obtain ⟨p, q, hAe, hEe, he⟩ := pfMul_some _ _ _ hm
    unfold determine_possible_gears_based_available_powers at h
    simp only [] at h
    have hP1 : ((List.range NoOfGearsFinal).foldl (fun Pm g =>
        if 2 ≤ g then putColAt Pm g (whereIdx TraceTimesCount fun s =>
          pfGe (elfm AvailablePowers s g) (elf requiredPowersF s)) (pf 1)
        else Pm) ((List.range TraceTimesCount).map fun _ =>
          (List.range NoOfGearsFinal).map fun g =>
            if g < 2 then pf 1 else none)).length = TraceTimesCount ∧
        (((List.range NoOfGearsFinal).foldl (fun Pm g =>
        if 2 ≤ g then putColAt Pm g (whereIdx TraceTimesCount fun s =>
          pfGe (elfm AvailablePowers s g) (elf requiredPowersF s)) (pf 1)
        else Pm) ((List.range TraceTimesCount).map fun _ =>
          (List.range NoOfGearsFinal).map fun g =>
            if g < 2 then pf 1 else none)).getD t []).length =
          NoOfGearsFinal := by
      refine foldl_inv (fun (M : List (List PyF)) =>
        M.length = TraceTimesCount ∧
        (M.getD t []).length = NoOfGearsFinal) _ _ _ ⟨?_, ?_⟩ ?_
      · simp
      · rw [List.getD_eq_getElem?_getD, List.getElem?_map,
          List.getElem?_range hT]
        simp
      · intro b a ha hb
        constructor
        · show (if 2 ≤ a then putColAt b a (whereIdx TraceTimesCount fun s =>
            pfGe (elfm AvailablePowers s a) (elf requiredPowersF s)) (pf 1)
            else b).length = TraceTimesCount
          split
          · rw [putColAt_length]
            exact hb.1
          · exact hb.1
        · show ((if 2 ≤ a then putColAt b a (whereIdx TraceTimesCount fun s =>
            pfGe (elfm AvailablePowers s a) (elf requiredPowersF s)) (pf 1)
            else b).getD t []).length = NoOfGearsFinal
          split
          · rw [putColAt_rowlen]
            exact hb.2
          · exact hb.2
    have hIt : eln (((List.range TraceTimesCount).map fun s =>
        (List.range NoOfGearsFinal).map fun g =>
          kEntry AvailablePowers PossibleGearsByEngineSpeed s g).map fun row =>
        NoOfGearsFinal - argmaxFirst row.reverse - 1) t = gm := by
      unfold eln
      rw [List.getD_eq_getElem?_getD, List.getElem?_map, List.getElem?_map,
        List.getElem?_range hT]
      rw [hgmdef]
      rfl
    have hfw := fallback_fold_writes TraceTimesCount NoOfGearsFinal _ _ P t
      hT hP1.1 hP1.2 h (by rw [hIt]; exact hgmlt)
    rw [hIt] at hfw
    exact ⟨gm, hgmlt, combined_entry_ne_none InStandStill
      PossibleGearsByEngineSpeed P t gm q hns hEe hfw⟩

def c6wA : List (List PyF) := [[pf 10, pf 10, pf 2]]

def c6weng : List (List PyF) := [[none, none, pf 1]]

def c6wP : List (List PyF) :=
  (determine_possible_gears_based_available_powers c6wA [pf 0] 1 3
    c6weng).toOption.getD []

/-- Witness for the amended C6 theorem on a one second trace with three
gears where only gear 3 is engine speed admissible and has positive
available power. -/
theorem C6_power_fallback_flags_possible_gear_witness :
    (0 : ℕ) < 1 ∧ ∃ g, g < 3 ∧
      elfm (combine_possible_gears [0] c6weng c6wP) 0 g ≠ none :=
  ⟨by decide, C6_power_fallback_flags_possible_gear c6wA [pf 0] 1 3 c6weng [0] c6wP 0 (by decide) (by rfl)
    (by decide) ⟨2, PQ.mul (pqI 2) (pqI 1), by decide, by rfl, by decide⟩
    (by rfl)⟩

end Gearshift
